import Mathlib

/-!
Verification development for the anime-studio positioning-map generator
(`create_plotly_map.py`).  The generator builds nine Plotly scatter views over
a fixed list of studio records, merges coordinate-colliding studios into
single points, resolves label anchors, and embeds a JavaScript filter engine
that restyles the rendered traces from a snapshot of their initial state.

The Python and JavaScript code is shallowly embedded here:
  * JavaScript/Python strings that are split or joined are modelled as lists
    of Unicode code points (`Str`), so `String.prototype.split` and
    `Array.prototype.join` become structural recursions;
  * Python dicts used in insertion order (`groups.setdefault`,
    `VISIBILITY_MAP`) become ordered association lists (`ogroup`, `alookup`);
  * numeric values are rationals (the source only compares, adds, subtracts
    and scales them; no transcendental function reaches any verified path);
  * absent-or-null optional fields are `Option` values;
  * the event-driven browser state is a step function on an explicit state
    record.
-/

namespace PosMap

/-- Source strings that undergo split/join are modelled as lists of Unicode
code points, so the JavaScript separator operations are structural
recursions. -/
abbrev Str := List Nat

/-- Embedding of JavaScript `parts.join(sep)` / Python `sep.join(parts)`. -/
def joinSep (sep : Str) : List Str → Str
  | [] => []
  | [p] => p
  | p :: ps => p ++ sep ++ joinSep sep ps

/-- Fuel-indexed worker for `splitOnSep`; the fuel is the length of the
string being split, which bounds the number of steps since the separator is
nonempty wherever this is used. -/
def splitAux (sep : Str) : Nat → Str → Str → List Str
  | _, [], cur => [cur.reverse]
  | 0, s, cur => [cur.reverse ++ s]
  | fuel + 1, c :: rest, cur =>
    if sep.isPrefixOf (c :: rest) then
      cur.reverse :: splitAux sep fuel ((c :: rest).drop sep.length) []
    else
      splitAux sep fuel rest (c :: cur)

/-- Embedding of JavaScript `s.split(sep)` for a nonempty separator:
leftmost, non-overlapping occurrences of `sep` cut the string. -/
def splitOnSep (sep s : Str) : List Str := splitAux sep s.length s []

/-- The code point of the box-drawing dash used in the hover separator. -/
def DASH : Nat := 9472

/-- The `"<br>"` token as code points. -/
def SEP_BR : Str := [60, 98, 114, 62]

/-- The hover separator `"<br>───────────<br>"` (eleven box-drawing dashes)
used both when building merged hover text and when the filter engine splits
it back into per-member fragments. -/
def HOVER_SEP : Str := SEP_BR ++ List.replicate 11 DASH ++ SEP_BR

section Grouping

variable {σ κ : Type} [DecidableEq κ]

/-- One step of insertion-ordered grouping: append `s` to the group of key
`k` if that key already exists, otherwise add a new `(k, [s])` group at the
end.  This is the behaviour of Python's `dict.setdefault(key, []).append`. -/
def insertGrouped (k : κ) (s : σ) : List (κ × List σ) → List (κ × List σ)
  | [] => [(k, [s])]
  | (k', g) :: rest =>
    if k = k' then (k', g ++ [s]) :: rest else (k', g) :: insertGrouped k s rest

/-- Insertion-ordered grouping of a list by a key function, the Lean model of
a Python dict built with `setdefault` and then iterated in insertion order. -/
def ogroup (key : σ → κ) (l : List σ) : List (κ × List σ) :=
  l.foldl (fun acc s => insertGrouped (key s) s acc) []

/-- First-encounter deduplication of a list of keys (the key order of a
Python dict built by repeated insertion). -/
def feDedup (l : List κ) : List κ :=
  l.foldl (fun acc k => if k ∈ acc then acc else acc ++ [k]) []

/-- Closed form of `ogroup`: first-encounter-ordered keys, each paired with
the sublist of inputs having exactly that key. -/
def groupsOf (key : σ → κ) (l : List σ) : List (κ × List σ) :=
  (feDedup (l.map key)).map (fun k => (k, l.filter (fun s => key s = k)))

theorem ogroup_append_singleton (key : σ → κ) (l : List σ) (s : σ) :
    ogroup key (l ++ [s]) = insertGrouped (key s) s (ogroup key l) := by
  simp [ogroup, List.foldl_append]

theorem feDedup_append_singleton (l : List κ) (k : κ) :
    feDedup (l ++ [k]) = if k ∈ feDedup l then feDedup l else feDedup l ++ [k] := by
  simp [feDedup, List.foldl_append]

theorem mem_feDedup_aux (xs : List κ) :
    ∀ acc y, y ∈ xs.foldl (fun acc k => if k ∈ acc then acc else acc ++ [k]) acc ↔
      y ∈ acc ∨ y ∈ xs := by
  induction xs with
  | nil => simp
  | cons x xs ih =>
    intro acc y
    simp only [List.foldl_cons, ih, List.mem_cons]
    by_cases hx : x ∈ acc
    · simp only [if_pos hx]
      constructor
      · rintro (h | h) <;> tauto
      · rintro (h | h | h)
        · tauto
        · subst h; exact Or.inl hx
        · tauto
    · simp only [if_neg hx, List.mem_append, List.mem_singleton]
      tauto

theorem mem_feDedup {l : List κ} {y : κ} : y ∈ feDedup l ↔ y ∈ l := by
  simpa using mem_feDedup_aux l [] y

theorem nodup_feDedup_aux (xs : List κ) :
    ∀ acc, acc.Nodup →
      (xs.foldl (fun acc k => if k ∈ acc then acc else acc ++ [k]) acc).Nodup := by
  induction xs with
  | nil => intro acc h; simpa using h
  | cons x xs ih =>
    intro acc hacc
    simp only [List.foldl_cons]
    by_cases hx : x ∈ acc
    · rw [if_pos hx]; exact ih acc hacc
    · rw [if_neg hx]
      exact ih (acc ++ [x]) (by simp [List.nodup_append, hx, hacc])

theorem nodup_feDedup (l : List κ) : (feDedup l).Nodup :=
  nodup_feDedup_aux l [] List.nodup_nil

theorem insertGrouped_of_not_mem (k : κ) (s : σ) (f : κ → List σ) :
    ∀ ks : List κ, k ∉ ks →
      insertGrouped k s (ks.map fun k' => (k', f k')) =
        (ks.map fun k' => (k', f k')) ++ [(k, [s])] := by
  intro ks
  induction ks with
  | nil => intro _; rfl
  | cons a ks ih =>
    intro h
    have hka : ¬ k = a := fun hk => h (by simp [hk])
    simp only [List.map_cons, insertGrouped, if_neg hka, List.cons_append]
    rw [ih (fun hm => h (List.mem_cons_of_mem a hm))]

theorem insertGrouped_of_mem (k : κ) (s : σ) (f : κ → List σ) :
    ∀ ks : List κ, ks.Nodup → k ∈ ks →
      insertGrouped k s (ks.map fun k' => (k', f k')) =
        ks.map fun k' => (k', if k' = k then f k' ++ [s] else f k') := by
  intro ks
  induction ks with
  | nil => intro _ h; cases h
  | cons a ks ih =>
    intro hnd hmem
    rcases List.nodup_cons.mp hnd with ⟨hna, hndks⟩
    by_cases hk : k = a
    · subst hk
      simp only [List.map_cons, insertGrouped, if_pos rfl]
      have htail : List.map (fun k' => (k', f k')) ks
          = List.map (fun k' => (k', if k' = k then f k' ++ [s] else f k')) ks := by
        refine List.map_congr_left ?_
        intro a ha
        have hak : ¬ a = k := fun h => hna (h ▸ ha)
        simp [hak]
      rw [← htail]
      simp
    · have hmem' : k ∈ ks := by
        rcases List.mem_cons.mp hmem with h | h
        · exact absurd h hk
        · exact h
      simp only [List.map_cons, insertGrouped, if_neg hk]
      rw [ih hndks hmem']
      have : ¬ a = k := fun h => hk h.symm
      simp [this]

theorem ogroup_eq_groupsOf (key : σ → κ) (l : List σ) :
    ogroup key l = groupsOf key l := by
  induction l using List.reverseRecOn with
  | nil => rfl
  | append_singleton l s ih =>
    rw [ogroup_append_singleton, ih]
    unfold groupsOf
    simp only [List.map_append, List.map_cons, List.map_nil]
    rw [feDedup_append_singleton]
    by_cases hmem : key s ∈ feDedup (l.map key)
    · rw [if_pos hmem]
      rw [insertGrouped_of_mem (key s) s _ _ (nodup_feDedup _) hmem]
      refine List.map_congr_left ?_
      intro k hk
      by_cases hks : k = key s
      · subst hks
        simp [List.filter_append]
      · have : ¬ key s = k := fun h => hks h.symm
        simp [hks, List.filter_append, this]
    · rw [if_neg hmem]
      rw [insertGrouped_of_not_mem (key s) s _ _ hmem]
      rw [List.map_append]
      congr 1
      · refine List.map_congr_left ?_
        intro k hk
        have hks : ¬ key s = k := by
          intro h
          exact hmem (h ▸ hk)
        simp [List.filter_append, hks]
      · have hfil : l.filter (fun t => key t = key s) = [] := by
          refine List.filter_eq_nil_iff.mpr ?_
          intro t ht hkey
          exact hmem (mem_feDedup.mpr (List.mem_map.mpr ⟨t, ht, by simpa using hkey⟩))
        simp [List.filter_append, hfil]

theorem ogroup_mem_snd {key : σ → κ} {l : List σ} {k : κ} {g : List σ}
    (h : (k, g) ∈ ogroup key l) : g = l.filter (fun s => key s = k) := by
  rw [ogroup_eq_groupsOf] at h
  rcases List.mem_map.mp h with ⟨k', _, hk'⟩
  cases hk'
  rfl

theorem mem_ogroup_flatMap {key : σ → κ} {l : List σ} {s : σ} (hs : s ∈ l) :
    s ∈ (ogroup key l).flatMap Prod.snd := by
  rw [ogroup_eq_groupsOf]
  refine List.mem_flatMap.mpr ?_
  refine ⟨(key s, l.filter (fun t => key t = key s)), ?_, ?_⟩
  · refine List.mem_map.mpr ⟨key s, ?_, rfl⟩
    exact mem_feDedup.mpr (List.mem_map.mpr ⟨s, hs, rfl⟩)
  · exact List.mem_filter.mpr ⟨hs, by simp⟩

end Grouping

/-- One studio record from `studios_merged.yaml`, with the stable global
index (`studio_global_idx`, equivalently the exported `idx`) carried as a
field.  Optional attributes are `Option`; `none` stands for an absent key or
a YAML `null`.  Fields that never reach a verified code path are still kept
so that the record mirrors the source's data model. -/
structure Studio where
  idx : Nat
  name : Str := []
  name_en : Str := []
  region : String := "domestic"
  founded : Option Int := none
  size_founded_num : Option ℚ := none
  size_current_num : Option ℚ := none
  original_score : Option ℚ := none
  original_score_founded : Option ℚ := none
  ip_ownership_score : Option ℚ := none
  business_model : Option String := none
  ownership_type : Option String := none
  ai_adoption_level : Option String := none
  ai_adoption_detail : Option String := none
  parent_company : Option String := none
  primary_platform : List String := []
  notable_works : List Str := []
  revenue_billion_yen : Option ℚ := none
  operating_margin : Option ℚ := none
  licensing_ratio : Option ℚ := none
  years_to_profitability : Option ℚ := none
deriving DecidableEq

/-- Embedding of the source's `s.get(size_key, 10) or 10` idiom: a missing,
null or zero (falsy) size collapses to the sentinel minimum 10. -/
def jsOr10 : Option ℚ → ℚ
  | none => 10
  | some v => if v = 0 then 10 else v

/-- The bucketing key of `merge_overlapping`: the exact pair
`(s.get(x_key, s["original_score"]), s.get(size_key, 10) or 10)`.
The x selector already models the dict lookup (so it may yield `none` for a
null score); the y component is defaulted through `jsOr10`. -/
def mergeKey (xsel ysel : Studio → Option ℚ) (s : Studio) : Option ℚ × ℚ :=
  (xsel s, jsOr10 (ysel s))

/-- A merged visual point: the (possibly combined) studio dict plus the
`_hover_parts` member list, which is present exactly when two or more
studios collided. -/
structure MPoint where
  studio : Studio
  hover_parts : Option (List Studio)
deriving DecidableEq

/-- The member studios a merged point represents: `_hover_parts` when
present, otherwise the singleton of the point's own record. -/
def pointMembers (p : MPoint) : List Studio :=
  p.hover_parts.getD [p.studio]

/-- The body of the output loop of `merge_overlapping`: a singleton bucket
passes the record through unchanged, a larger bucket emits a copy of the
first member whose display name is the `<br>`-joined member names and whose
`_hover_parts` is the ordered member list. -/
def mergeArm (g : List Studio) : List MPoint :=
  match g with
  | [] => []
  | [s] => [⟨s, none⟩]
  | s :: s2 :: rest =>
    [⟨{ s with name := joinSep SEP_BR ((s :: s2 :: rest).map Studio.name) },
      some (s :: s2 :: rest)⟩]

/-- Embedding of `merge_overlapping(studio_list, x_key, size_key)`: group by
the exact `(x, y)` key in dict insertion order, then merge each bucket. -/
def merge_overlapping (xsel ysel : Studio → Option ℚ) (l : List Studio) : List MPoint :=
  (ogroup (mergeKey xsel ysel) l).flatMap (fun kg => mergeArm kg.2)

/-- Embedding of `build_point_map(studio_list, x_key, size_key)`: re-merge
the same list and record, per merged point, the global indices of its
members (`studio_global_idx[id(p)]` is the `idx` field here). -/
def build_point_map (xsel ysel : Studio → Option ℚ) (l : List Studio) : List (List Nat) :=
  (merge_overlapping xsel ysel l).map fun p =>
    match p.hover_parts with
    | some parts => parts.map Studio.idx
    | none => [p.studio.idx]

theorem mergeArm_members {g : List Studio} (h : g ≠ []) :
    (mergeArm g).map pointMembers = [g] := by
  match g with
  | [] => exact absurd rfl h
  | [s] => rfl
  | s :: s2 :: rest => rfl

theorem ogroup_snd_ne_nil {κ : Type} [DecidableEq κ] {key : Studio → κ} {l : List Studio} :
    ∀ p ∈ ogroup key l, p.2 ≠ [] := by
  rw [ogroup_eq_groupsOf]
  intro p hp
  rcases List.mem_map.mp hp with ⟨k, hk, rfl⟩
  rcases List.mem_map.mp (mem_feDedup.mp hk) with ⟨s, hs, rfl⟩
  intro hnil
  have h2 : l.filter (fun t => key t = key s) = [] := hnil
  have hmem : s ∈ l.filter (fun t => key t = key s) := List.mem_filter.mpr ⟨hs, by simp⟩
  rw [h2] at hmem
  cases hmem

theorem flatMap_mergeArm_members :
    ∀ (L : List ((Option ℚ × ℚ) × List Studio)), (∀ p ∈ L, p.2 ≠ []) →
      ((L.flatMap (fun kg => mergeArm kg.2)).map pointMembers) = L.map Prod.snd := by
  intro L
  induction L with
  | nil => intro _; rfl
  | cons p L ih =>
    intro h
    simp only [List.flatMap_cons, List.map_append, List.map_cons]
    rw [mergeArm_members (h p (List.mem_cons_self p L)), ih (fun q hq => h q (List.mem_cons_of_mem p hq))]
    rfl

theorem merge_members_eq (xsel ysel : Studio → Option ℚ) (l : List Studio) :
    (merge_overlapping xsel ysel l).map pointMembers
      = (feDedup (l.map (mergeKey xsel ysel))).map
          (fun k => l.filter (fun s => mergeKey xsel ysel s = k)) := by
  unfold merge_overlapping
  rw [flatMap_mergeArm_members _ (ogroup_snd_ne_nil)]
  rw [ogroup_eq_groupsOf]
  unfold groupsOf
  rw [List.map_map]
  rfl

theorem mem_merge_shape {xsel ysel : Studio → Option ℚ} {l : List Studio} {p : MPoint}
    (hp : p ∈ merge_overlapping xsel ysel l) :
    ∃ g : List Studio, g ≠ [] ∧ p ∈ mergeArm g ∧ pointMembers p = g := by
  rcases List.mem_flatMap.mp hp with ⟨kg, hkg, hmem⟩
  have hne := ogroup_snd_ne_nil kg hkg
  refine ⟨kg.2, hne, hmem, ?_⟩
  match hg : kg.2 with
  | [] => exact absurd hg hne
  | [s] =>
    rw [hg] at hmem
    rcases List.mem_singleton.mp hmem with rfl
    rfl
  | s :: s2 :: rest =>
    rw [hg] at hmem
    rcases List.mem_singleton.mp hmem with rfl
    rfl

theorem build_point_map_eq (xsel ysel : Studio → Option ℚ) (l : List Studio) :
    build_point_map xsel ysel l
      = (merge_overlapping xsel ysel l).map (fun p => (pointMembers p).map Studio.idx) := by
  unfold build_point_map
  refine List.map_congr_left ?_
  intro p _
  cases hp : p.hover_parts <;> simp [pointMembers, hp]

/-- Claim C6.  The coordinate grouper is a pure function that buckets the
input entities by exact `(x, y)` key equality (no proximity tolerance),
defaulting a missing/falsy y to the sentinel 10 instead of dropping the
entity; it emits one merged point per bucket in first-encounter key order
with members in input order; a multi-member bucket's point is the first
member with a `<br>`-joined display name and the ordered nonempty member
list as provenance; a singleton bucket yields the entity itself untouched;
and `build_point_map` records exactly the members' global indices. -/
theorem C6_grouper_exact_merge (xsel ysel : Studio → Option ℚ) (l : List Studio) :
    ((merge_overlapping xsel ysel l).map pointMembers
        = (feDedup (l.map (mergeKey xsel ysel))).map
            (fun k => l.filter (fun s => mergeKey xsel ysel s = k)))
    ∧ (∀ s ∈ l, ∃ p ∈ merge_overlapping xsel ysel l, s ∈ pointMembers p)
    ∧ (∀ s ∈ l, ysel s = none → mergeKey xsel ysel s = (xsel s, 10))
    ∧ (∀ p ∈ merge_overlapping xsel ysel l, pointMembers p ≠ [])
    ∧ (∀ p ∈ merge_overlapping xsel ysel l, ∀ s : Studio,
        pointMembers p = [s] → p = ⟨s, none⟩)
    ∧ (∀ p ∈ merge_overlapping xsel ysel l, ∀ s s2 : Studio, ∀ rest : List Studio,
        pointMembers p = s :: s2 :: rest →
          p.studio = { s with name := joinSep SEP_BR ((s :: s2 :: rest).map Studio.name) }
          ∧ p.hover_parts = some (s :: s2 :: rest))
    ∧ build_point_map xsel ysel l
        = (merge_overlapping xsel ysel l).map (fun p => (pointMembers p).map Studio.idx) := by
  refine ⟨merge_members_eq xsel ysel l, ?_, ?_, ?_, ?_, ?_, build_point_map_eq xsel ysel l⟩
  · intro s hs
    have hflat : s ∈ (ogroup (mergeKey xsel ysel) l).flatMap Prod.snd :=
      mem_ogroup_flatMap hs
    rcases List.mem_flatMap.mp hflat with ⟨kg, hkg, hmem⟩
    have hne := ogroup_snd_ne_nil kg hkg
    have hpoint : ∃ p ∈ mergeArm kg.2, pointMembers p = kg.2 := by
      match hg : kg.2 with
      | [] => exact absurd hg hne
      | [t] => exact ⟨⟨t, none⟩, List.mem_singleton.mpr rfl, rfl⟩
      | t :: t2 :: rest => exact ⟨_, List.mem_singleton.mpr rfl, rfl⟩
    rcases hpoint with ⟨p, hpArm, hpm⟩
    refine ⟨p, ?_, ?_⟩
    · exact List.mem_flatMap.mpr ⟨kg, hkg, hpArm⟩
    · rw [hpm]; exact hmem
  · intro s _ hy
    simp [mergeKey, hy, jsOr10]
  · intro p hp
    rcases mem_merge_shape hp with ⟨g, hne, _, hpm⟩
    rw [hpm]; exact hne
  · intro p hp s hps
    rcases mem_merge_shape hp with ⟨g, hne, hArm, hpm⟩
    rw [hps] at hpm
    subst hpm
    simp only [mergeArm, List.mem_singleton] at hArm
    exact hArm
  · intro p hp s s2 rest hps
    rcases mem_merge_shape hp with ⟨g, hne, hArm, hpm⟩
    rw [hps] at hpm
    subst hpm
    simp only [mergeArm, List.mem_singleton] at hArm
    subst hArm
    exact ⟨rfl, rfl⟩

/-- The default x selector `original_score` (used by views 1, 2, 4, 5, 7, 8). -/
def selX (s : Studio) : Option ℚ := s.original_score

/-- The y selector `size_current_num`. -/
def selYcur (s : Studio) : Option ℚ := s.size_current_num

/-- A studio with a missing size, used to witness the sentinel-y default. -/
def wStudioC : Studio := { idx := 2, original_score := some (1/4) }

theorem C6_witness : mergeKey selX selYcur wStudioC = (selX wStudioC, 10) :=
  (C6_grouper_exact_merge selX selYcur [wStudioC]).2.2.1 wStudioC (List.mem_singleton.mpr rfl) rfl

/-- Ordered association-list lookup, the model of access to a Python dict or
JavaScript object iterated/read in insertion order. -/
def alookup {α : Type} (k : String) (m : List (String × α)) : Option α :=
  (m.find? (fun p => p.1 = k)).map Prod.snd

/-- `LABEL_NAMES["business_model"]` from the source, in insertion order. -/
def BM_LABELS : List (String × String) :=
  [("commission", "受託制作"), ("mixed", "混合"),
   ("original", "オリジナル"), ("ip_holding", "IP保有")]

/-- The category key used by `make_categorical_scatter` for the
business-model view: `s.get("business_model", "unknown")` with a later
`if val is None: val = "unknown"` — both an absent key and a null value
collapse to `"unknown"`. -/
def bmKey (s : Studio) : String := s.business_model.getD "unknown"

/-- `bm_studios`: the entity subset of view 4 (ip_ownership_score present). -/
def bmStudios (studios : List Studio) : List Studio :=
  studios.filter (fun s => s.ip_ownership_score ≠ none)

/-- View 4's x selector (`original_score` is a required key there). -/
def xsel4 (s : Studio) : Option ℚ := s.original_score

/-- View 4's y selector (`ip_ownership_score`). -/
def ysel4 (s : Studio) : Option ℚ := s.ip_ownership_score

/-- The legend name of a business-model trace:
`label_map.get(cat_val, cat_val)` with an empty legend prefix. -/
def bmTraceName (catVal : String) : String := (alookup catVal BM_LABELS).getD catVal

/-- The reverse label lookup of the point-map rebuild loop: scan
`LABEL_NAMES["business_model"]` in insertion order for a key whose display
label equals the trace name. -/
def labelToKey (label : String) : Option String :=
  (BM_LABELS.find? (fun p => p.2 = label)).map Prod.fst

/-- The point map assigned in the first view-4 loop: it compares the raw
`business_model` value against the trace's display name
(`tr.name.replace("", "")` is the identity), which matches no studio whose
raw value is a category key. -/
def bmStalePointMap (studios : List Studio) (catVal : String) : List (List Nat) :=
  build_point_map xsel4 ysel4
    ((bmStudios studios).filter (fun s => s.business_model = some (bmTraceName catVal)))

/-- The point map a view-4 trace ends up with: the rebuild loop overwrites
the stale map only when the reverse label lookup recovers a category key;
otherwise the stale first-loop map survives. -/
def bmFinalPointMap (studios : List Studio) (catVal : String) : List (List Nat) :=
  match labelToKey (bmTraceName catVal) with
  | some k =>
    build_point_map xsel4 ysel4
      ((bmStudios studios).filter (fun s => s.business_model = some k))
  | none => bmStalePointMap studios catVal

/-- The business-model view: one entry per category group in insertion
order, pairing the trace's merged points with the point map recorded for
that trace index. -/
def bmView (studios : List Studio) : List (List MPoint × List (List Nat)) :=
  (ogroup bmKey (bmStudios studios)).map fun kg =>
    (merge_overlapping xsel4 ysel4 kg.2, bmFinalPointMap studios kg.1)

/-- A recorded point map is consistent with a trace when it has exactly one
entry per rendered point, in the same order, listing exactly the global
indices of the entities merged into that point. -/
def consistentMap (points : List MPoint) (pm : List (List Nat)) : Prop :=
  pm = points.map (fun p => (pointMembers p).map Studio.idx)

instance instDecConsistentMap (points : List MPoint) (pm : List (List Nat)) :
    Decidable (consistentMap points pm) :=
  inferInstanceAs (Decidable (pm = points.map (fun p => (pointMembers p).map Studio.idx)))

/-- A studio whose business model is absent: its view-4 group key is
`"unknown"`, whose display label reverse-maps to no category key. -/
def c2Studio : Studio :=
  { idx := 0, name := [97], original_score := some (1/2), ip_ownership_score := some (1/2) }

/-- Claim C2, counterexample.  With a single studio whose
`business_model` is absent (but `ip_ownership_score` present), the
business-model view renders one point for the `"unknown"` group, yet the
recorded point map for that trace is the stale empty list from the first
loop, so the map is not consistent with the trace. -/
theorem C2_counterexample :
    ¬ ∀ studios : List Studio, ∀ e ∈ bmView studios, consistentMap e.1 e.2 := by
  intro h
  have h1 := h [c2Studio]
  revert h1
  decide

theorem bm_filter_eq (studios : List Studio) (catVal : String) (h : catVal ≠ "unknown") :
    (bmStudios studios).filter (fun s => bmKey s = catVal)
      = (bmStudios studios).filter (fun s => s.business_model = some catVal) := by
  refine List.filter_congr ?_
  intro s _
  cases hb : s.business_model with
  | none => simp [bmKey, hb, Ne.symm h]
  | some b => simp [bmKey, hb]

/-- Claim C2, amended.  For every trace whose point map is built from the
same studio list and the same selectors as the trace itself — every
non-categorical trace, and every business-model category group whose value
is one of the four labelled keys — the recorded map has exactly one entry
per rendered point, in the same order, listing exactly the member indices.
The `"unknown"` business-model group instead keeps the stale (generally
inconsistent) first-loop map, as the counterexample shows. -/
theorem C2_amended :
    (∀ (xsel ysel : Studio → Option ℚ) (l : List Studio),
        consistentMap (merge_overlapping xsel ysel l) (build_point_map xsel ysel l))
    ∧ ∀ (studios : List Studio) (catVal : String) (members : List Studio),
        (catVal, members) ∈ ogroup bmKey (bmStudios studios) →
        catVal ∈ ["commission", "mixed", "original", "ip_holding"] →
        consistentMap (merge_overlapping xsel4 ysel4 members)
          (bmFinalPointMap studios catVal) := by
  constructor
  · intro xsel ysel l
    exact (build_point_map_eq xsel ysel l)
  · intro studios catVal members hmem hcat
    simp only [List.mem_cons, List.not_mem_nil, or_false] at hcat
    have hmembers : members = (bmStudios studios).filter (fun s => bmKey s = catVal) :=
      ogroup_mem_snd hmem
    have hkey : labelToKey (bmTraceName catVal) = some catVal := by
      rcases hcat with rfl | rfl | rfl | rfl <;> decide
    have hne : catVal ≠ "unknown" := by
      rcases hcat with rfl | rfl | rfl | rfl <;> decide
    have hfinal : bmFinalPointMap studios catVal
        = build_point_map xsel4 ysel4
            ((bmStudios studios).filter (fun s => s.business_model = some catVal)) := by
      unfold bmFinalPointMap
      rw [hkey]
    rw [hfinal, hmembers, bm_filter_eq studios catVal hne]
    exact build_point_map_eq xsel4 ysel4 _

/-- A studio with a labelled business-model key, for the C2 witness. -/
def c2wStudio : Studio := { idx := 0, business_model := some "mixed", ip_ownership_score := some 1 }

theorem C2_amended_witness :
    consistentMap (merge_overlapping xsel4 ysel4 [c2wStudio]) (bmFinalPointMap [c2wStudio] "mixed") :=
  C2_amended.2 [c2wStudio] "mixed" [c2wStudio] (List.mem_singleton.mpr rfl) (by simp)

/-- Python truthiness of an optional rational (`None` and `0` are falsy). -/
def jsTruthyQ : Option ℚ → Bool
  | none => false
  | some v => decide (v ≠ 0)

/-- `domestic`: the studios whose region is `"domestic"`. -/
def domesticOf (l : List Studio) : List Studio := l.filter (fun s => s.region = "domestic")

/-- `international`: the studios whose region is `"international"`. -/
def internationalOf (l : List Studio) : List Studio :=
  l.filter (fun s => s.region = "international")

/-- `growth_studios`: both sizes truthy and different. -/
def growthStudios (l : List Studio) : List Studio :=
  l.filter (fun s => jsTruthyQ s.size_founded_num && jsTruthyQ s.size_current_num
    && decide (s.size_founded_num ≠ s.size_current_num))

/-- The ownership-view category key (absent/null collapses to "unknown"). -/
def ownKey (s : Studio) : String := s.ownership_type.getD "unknown"

/-- `get_primary_platform`: the first listed platform, `"Other"` if none. -/
def pfKey (s : Studio) : String :=
  match s.primary_platform with
  | [] => "Other"
  | p :: _ => p

/-- The four AI adoption levels iterated by the AI view. -/
def aiLevels : List String := ["none", "experimental", "production", "core"]

/-- The union of the AI view's series (region × level, empty groups skipped;
skipping does not change the union). -/
def coveredAi (l : List Studio) : List Studio :=
  [domesticOf l, internationalOf l].flatMap fun rl =>
    aiLevels.flatMap fun lev => rl.filter (fun s => s.ai_adoption_level = some lev)

/-- The union of the entities covered by the series of each view, read off
the per-view selection code of the view builder. -/
def coveredEntities (view : String) (l : List Studio) : List Studio :=
  match view with
  | "founded" => domesticOf l ++ internationalOf l
  | "current" => domesticOf l ++ internationalOf l
  | "growth" => domesticOf (growthStudios l) ++ internationalOf (growthStudios l)
  | "business_model" => (ogroup bmKey (bmStudios l)).flatMap Prod.snd
  | "ai_adoption" => coveredAi l
  | "revenue" => l.filter (fun s => s.revenue_billion_yen ≠ none)
  | "ownership" => (ogroup ownKey l).flatMap Prod.snd
  | "platform" => (ogroup pfKey l).flatMap Prod.snd
  | "profitability" =>
      l.filter (fun s => s.years_to_profitability = none)
        ++ l.filter (fun s => decide (s.years_to_profitability ≠ none))
  | _ => []

/-- `VIEW_KEYS`, the nine view keys in source order. -/
def VIEW_KEYS : List String :=
  ["founded", "current", "growth", "business_model", "ai_adoption",
   "revenue", "ownership", "platform", "profitability"]

/-- A domestic studio with every optional attribute absent. -/
def c5Studio : Studio := { idx := 0 }

/-- Claim C5, counterexample.  A studio lacking both size measures is in no
series of the growth view at all — the growth view has no "no data" series —
so the union of a view's covered entities need not equal the entity store. -/
theorem C5_counterexample :
    ¬ ∀ l : List Studio, ∀ v ∈ VIEW_KEYS, ∀ s ∈ l, s ∈ coveredEntities v l := by
  intro h
  have hmem := h [c5Studio] "growth" (by simp [VIEW_KEYS]) c5Studio (List.mem_singleton.mpr rfl)
  exact List.not_mem_nil c5Studio (hmem : c5Studio ∈ ([] : List Studio))

/-- Claim C5, amended.  Full coverage holds for the ownership, platform and
profitability views unconditionally (absent values are routed to the
"unknown"/"Other"/no-data buckets), and for the founded and current views
whenever the entity's region is one of the two expected values; it fails in
general for the growth, business-model, AI and revenue views, which select
strict attribute-bearing subsets with no "no data" series. -/
theorem C5_amended : ∀ l : List Studio, ∀ s ∈ l,
    (s ∈ coveredEntities "ownership" l
      ∧ s ∈ coveredEntities "platform" l
      ∧ s ∈ coveredEntities "profitability" l)
    ∧ (s.region = "domestic" ∨ s.region = "international" →
        s ∈ coveredEntities "founded" l ∧ s ∈ coveredEntities "current" l) := by
  intro l s hs
  refine ⟨⟨?_, ?_, ?_⟩, ?_⟩
  · exact (mem_ogroup_flatMap hs : s ∈ (ogroup ownKey l).flatMap Prod.snd)
  · exact (mem_ogroup_flatMap hs : s ∈ (ogroup pfKey l).flatMap Prod.snd)
  · show s ∈ l.filter (fun s => s.years_to_profitability = none)
        ++ l.filter (fun s => decide (s.years_to_profitability ≠ none))
    by_cases h : s.years_to_profitability = none
    · exact List.mem_append_left _ (List.mem_filter.mpr ⟨hs, by simp [h]⟩)
    · exact List.mem_append_right _ (List.mem_filter.mpr ⟨hs, by simp [h]⟩)
  · intro hr
    have hmem : s ∈ domesticOf l ++ internationalOf l := by
      rcases hr with h | h
      · exact List.mem_append_left _ (List.mem_filter.mpr ⟨hs, by simp [h]⟩)
      · exact List.mem_append_right _ (List.mem_filter.mpr ⟨hs, by simp [h]⟩)
    exact ⟨hmem, hmem⟩

theorem C5_amended_witness :
    c5Studio ∈ coveredEntities "ownership" [c5Studio]
      ∧ c5Studio ∈ coveredEntities "founded" [c5Studio] :=
  ⟨(C5_amended [c5Studio] c5Studio (List.mem_singleton.mpr rfl)).1.1,
   ((C5_amended [c5Studio] c5Studio (List.mem_singleton.mpr rfl)).2 (Or.inl rfl)).1⟩

/-- Rational comparison computed on numerators and denominators.  The
library's `Rat.add`/`Rat.sub`/`Rat.blt` are irreducible, which blocks kernel
evaluation of concrete instances, so the embedding carries its arithmetic
through `mkRat` and `num`/`den`; the bridge lemmas below identify each
operation with the standard one. -/
def qlt (a b : ℚ) : Bool := decide (a.num * (b.den : Int) < b.num * (a.den : Int))

/-- Computable `≤` on rationals (see `qlt`). -/
def qle (a b : ℚ) : Bool := decide (a.num * (b.den : Int) ≤ b.num * (a.den : Int))

/-- Computable addition on rationals (see `qlt`). -/
def qadd (a b : ℚ) : ℚ := mkRat (a.num * b.den + b.num * a.den) (a.den * b.den)

/-- Computable subtraction on rationals (see `qlt`). -/
def qsub (a b : ℚ) : ℚ := mkRat (a.num * b.den - b.num * a.den) (a.den * b.den)

/-- Computable multiplication on rationals (see `qlt`). -/
def qmul (a b : ℚ) : ℚ := mkRat (a.num * b.num) (a.den * b.den)

/-- Computable negation on rationals (see `qlt`). -/
def qneg (a : ℚ) : ℚ := mkRat (-a.num) a.den

/-- Python's `abs`, via the computable comparison. -/
def qabs (x : ℚ) : ℚ := if qlt x (mkRat 0 1) then qneg x else x

theorem qlt_iff (a b : ℚ) : qlt a b = true ↔ a < b := by
  unfold qlt
  rw [decide_eq_true_iff]
  exact Rat.lt_def.symm

theorem qle_iff (a b : ℚ) : qle a b = true ↔ a ≤ b := by
  unfold qle
  rw [decide_eq_true_iff]
  exact Rat.le_def.symm

theorem qadd_eq (a b : ℚ) : qadd a b = a + b := by
  unfold qadd
  rw [Rat.mkRat_eq_div]
  push_cast
  conv_rhs => rw [← Rat.num_div_den a, ← Rat.num_div_den b]
  have ha : ((a.den : ℚ)) ≠ 0 := by exact_mod_cast a.den_nz
  have hb : ((b.den : ℚ)) ≠ 0 := by exact_mod_cast b.den_nz
  field_simp

theorem qsub_eq (a b : ℚ) : qsub a b = a - b := by
  unfold qsub
  rw [Rat.mkRat_eq_div]
  push_cast
  conv_rhs => rw [← Rat.num_div_den a, ← Rat.num_div_den b]
  have ha : ((a.den : ℚ)) ≠ 0 := by exact_mod_cast a.den_nz
  have hb : ((b.den : ℚ)) ≠ 0 := by exact_mod_cast b.den_nz
  field_simp
  ring

theorem qmul_eq (a b : ℚ) : qmul a b = a * b := by
  unfold qmul
  rw [Rat.mkRat_eq_div]
  push_cast
  conv_rhs => rw [← Rat.num_div_den a, ← Rat.num_div_den b]
  have ha : ((a.den : ℚ)) ≠ 0 := by exact_mod_cast a.den_nz
  have hb : ((b.den : ℚ)) ≠ 0 := by exact_mod_cast b.den_nz
  field_simp

theorem qneg_eq (a : ℚ) : qneg a = -a := by
  unfold qneg
  rw [Rat.mkRat_eq_div]
  push_cast
  rw [neg_div, Rat.num_div_den]

theorem mkRat_zero_one : mkRat 0 1 = (0 : ℚ) := by
  rw [Rat.mkRat_eq_div]
  norm_num

theorem qabs_eq (x : ℚ) : qabs x = |x| := by
  unfold qabs
  rw [mkRat_zero_one]
  by_cases h : x < 0
  · rw [if_pos ((qlt_iff x 0).mpr h), qneg_eq, abs_of_neg h]
  · rw [if_neg (fun hc => h ((qlt_iff x 0).mp hc)), abs_of_nonneg (le_of_not_lt h)]

/-- The plotted label position of a studio in `resolve_label_positions`:
`s.get(x_key, s["original_score"])` with a null x mapped to 0, and
`s.get(size_key, 10) or 10` for y. -/
def labelPos (xsel ysel : Studio → Option ℚ) (s : Studio) : ℚ × ℚ :=
  ((xsel s).getD 0, jsOr10 (ysel s))

/-- One entry of the `pairs` list: the Python tuple
`(dx + dy * 0.5, i, j, dx, dy)`. -/
structure LPair where
  d : ℚ
  i : Nat
  j : Nat
  dx : ℚ
  dy : ℚ
deriving DecidableEq

/-- Lexicographic comparison of two pair tuples, exactly Python's tuple
ordering used by `pairs.sort()`. -/
def pairLe (a b : LPair) : Bool :=
  qlt a.d b.d || (decide (a.d = b.d) &&
    (decide (a.i < b.i) || (decide (a.i = b.i) &&
      (decide (a.j < b.j) || (decide (a.j = b.j) &&
        (qlt a.dx b.dx || (decide (a.dx = b.dx) && qle a.dy b.dy)))))))

/-- Insert into a `pairLe`-sorted list. -/
def insortPair (a : LPair) : List LPair → List LPair
  | [] => [a]
  | b :: t => if pairLe a b then a :: b :: t else b :: insortPair a t

/-- The model of `pairs.sort()`.  Because the `(i, j)` components make every
tuple distinct, the ascending order is strict and any correct sort produces
the same list Python's does. -/
def sortPairs (l : List LPair) : List LPair := l.foldr insortPair []

/-- The all-pairs loop (`for i ...: for j in range(i+1, ...)`) building the
weighted-Manhattan distance tuples `(dx + dy * 0.5, i, j, dx, dy)`. -/
def mkPairs (ps : List (ℚ × ℚ)) : List LPair :=
  (List.range ps.length).flatMap fun i =>
    ((List.range ps.length).filter (fun j => decide (i < j))).map fun j =>
      let pa := ps.getD i (0, 0)
      let pb := ps.getD j (0, 0)
      let dx := qabs (qsub pa.1 pb.1)
      let dy := qabs (qsub pa.2 pb.2)
      { d := qadd dx (qmul dy (mkRat 1 2)), i := i, j := j, dx := dx, dy := dy }

/-- The fixed priority list of alternative anchors (the default
`"middle right"` is not among them). -/
def ALTERNATIVES : List String :=
  ["top right", "bottom right", "top center",
   "top left", "middle left", "bottom center", "bottom left"]

/-- The inner `for alt in alternatives: ... break` loop: the first
alternative that differs from point `i`'s current anchor and has not already
been assigned to point `j`. -/
def tryAlts (curI : String) (j : Nat) (used : List (Nat × String)) : List String → Option String
  | [] => none
  | alt :: rest =>
    if alt ≠ curI ∧ (j, alt) ∉ used then some alt else tryAlts curI j used rest

/-- The conflict guard `dx < 0.10 and dy < 150` of the pair walk. -/
def lpConflict (p : LPair) : Bool := qlt p.dx (mkRat 1 10) && qlt p.dy (mkRat 150 1)

theorem lpConflict_iff (p : LPair) :
    lpConflict p = true ↔ (p.dx < 1/10 ∧ p.dy < 150) := by
  unfold lpConflict
  rw [Bool.and_eq_true, qlt_iff, qlt_iff]
  constructor
  · rintro ⟨h1, h2⟩
    refine ⟨?_, ?_⟩
    · calc p.dx < mkRat 1 10 := h1
        _ = 1/10 := by rw [Rat.mkRat_eq_div]; norm_num
    · calc p.dy < mkRat 150 1 := h2
        _ = 150 := by rw [Rat.mkRat_eq_div]; norm_num
  · rintro ⟨h1, h2⟩
    refine ⟨?_, ?_⟩
    · calc p.dx < 1/10 := h1
        _ = mkRat 1 10 := by rw [Rat.mkRat_eq_div]; norm_num
    · calc p.dy < 150 := h2
        _ = mkRat 150 1 := by rw [Rat.mkRat_eq_div]; norm_num

/-- One iteration of the conflict walk: on a pair within both thresholds,
reassign the second point's anchor to the alternative found by `tryAlts`
and record it in `used`; otherwise leave the state unchanged. -/
def lpStep (st : List String × List (Nat × String)) (p : LPair) :
    List String × List (Nat × String) :=
  if lpConflict p then
    match tryAlts (st.1.getD p.i "") p.j st.2 ALTERNATIVES with
    | some alt => (st.1.set p.j alt, st.2 ++ [(p.j, alt)])
    | none => st
  else st

/-- Embedding of `resolve_label_positions(studio_list, size_key, x_key)`. -/
def resolve_label_positions (ysel xsel : Studio → Option ℚ) (l : List Studio) : List String :=
  ((sortPairs (mkPairs (l.map (labelPos xsel ysel)))).foldl lpStep
    (List.replicate l.length "middle right", [])).1

/-- The specification-side step: phrased with `List.find?` over the priority
list rather than the source's explicit loop with `break`. -/
def lpStepSpec (st : List String × List (Nat × String)) (p : LPair) :
    List String × List (Nat × String) :=
  if lpConflict p then
    match ALTERNATIVES.find?
        (fun alt => decide (alt ≠ st.1.getD p.i "") && decide ((p.j, alt) ∉ st.2)) with
    | some alt => (st.1.set p.j alt, st.2 ++ [(p.j, alt)])
    | none => st
  else st

theorem tryAlts_eq_find (curI : String) (j : Nat) (used : List (Nat × String)) :
    ∀ alts, tryAlts curI j used alts
      = alts.find? (fun alt => decide (alt ≠ curI) && decide ((j, alt) ∉ used)) := by
  intro alts
  induction alts with
  | nil => rfl
  | cons a alts ih =>
    by_cases h : a ≠ curI ∧ (j, a) ∉ used
    · simp only [tryAlts, if_pos h]
      rw [List.find?_cons_of_pos _ (by simp [h.1, h.2])]
    · simp only [tryAlts, if_neg h, ih]
      rw [List.find?_cons_of_neg _ (by simpa using h)]

theorem lpStep_eq_spec (st : List String × List (Nat × String)) (p : LPair) :
    lpStep st p = lpStepSpec st p := by
  unfold lpStep lpStepSpec
  rw [tryAlts_eq_find]

theorem lpStep_length (st : List String × List (Nat × String)) (p : LPair) :
    (lpStep st p).1.length = st.1.length := by
  unfold lpStep
  split
  · split
    · simp
    · rfl
  · rfl

theorem lpFold_length (pairs : List LPair) :
    ∀ st, ((pairs.foldl lpStep st).1).length = st.1.length := by
  induction pairs with
  | nil => intro st; rfl
  | cons p pairs ih =>
    intro st
    rw [List.foldl_cons, ih]
    exact lpStep_length st p

theorem tryAlts_mem {curI : String} {j : Nat} {used : List (Nat × String)}
    {alts : List String} {alt : String}
    (h : tryAlts curI j used alts = some alt) : alt ∈ alts := by
  rw [tryAlts_eq_find] at h
  exact List.mem_of_find?_eq_some h

theorem lpFold_mem (pairs : List LPair) :
    ∀ st, (∀ a ∈ st.1, a = "middle right" ∨ a ∈ ALTERNATIVES) →
      ∀ a ∈ (pairs.foldl lpStep st).1, a = "middle right" ∨ a ∈ ALTERNATIVES := by
  induction pairs with
  | nil => intro st h; exact h
  | cons p pairs ih =>
    intro st h
    rw [List.foldl_cons]
    refine ih (lpStep st p) ?_
    intro a ha
    unfold lpStep at ha
    cases hc : lpConflict p with
    | true =>
      rw [hc, if_pos rfl] at ha
      cases htry : tryAlts (st.1.getD p.i "") p.j st.2 ALTERNATIVES with
      | none => rw [htry] at ha; exact h a ha
      | some alt =>
        rw [htry] at ha
        rcases List.mem_or_eq_of_mem_set ha with hmem | rfl
        · exact h a hmem
        · exact Or.inr (tryAlts_mem htry)
    | false =>
      rw [hc] at ha
      simp only [Bool.false_eq_true, if_false] at ha
      exact h a ha

theorem lpFold_no_conflict (pairs : List LPair) :
    ∀ st, (∀ p ∈ pairs, lpConflict p = false) →
      pairs.foldl lpStep st = st := by
  induction pairs with
  | nil => intro st _; rfl
  | cons p pairs ih =>
    intro st h
    rw [List.foldl_cons]
    have hstep : lpStep st p = st := by
      unfold lpStep
      rw [h p (List.mem_cons_self p pairs)]
      simp
    rw [hstep]
    exact ih st (fun q hq => h q (List.mem_cons_of_mem p hq))

/-- Three studios at one location: the walk reassigns the second point to
the first alternative and the third point to the next one. -/
def demoP : Studio := { idx := 0, original_score := some 0, size_current_num := some 100 }

/-- Second co-located demo studio. -/
def demoQ : Studio := { idx := 1, name := [113], original_score := some 0, size_current_num := some 100 }

/-- Third co-located demo studio. -/
def demoR : Studio := { idx := 2, original_score := some 0, size_current_num := some 100 }

/-- A demo studio far away on the x axis (no conflict with `demoP`). -/
def demoS : Studio := { idx := 3, original_score := some 5, size_current_num := some 100 }

/-- A second far-away demo studio co-located with `demoS`. -/
def demoT : Studio := { idx := 4, original_score := some 5, size_current_num := some 100 }

/-- Claim C7.  The label resolver assigns exactly one anchor per point
(the output has one entry per input, each drawn from the default
`"middle right"` or the fixed alternative list); with no pair inside both
thresholds every point keeps the default east anchor; the loop body equals
the specification-side first-qualifying-alternative rule (`List.find?`);
and on concrete conflicting inputs the second point of a close pair gets
the first alternative while anchors may repeat across points (no
distinctness guarantee).  Determinism is immediate: the resolver is a pure
function of the ordered input list. -/
theorem C7_label_resolver (ysel xsel : Studio → Option ℚ) (l : List Studio) :
    (resolve_label_positions ysel xsel l).length = l.length
    ∧ (∀ a ∈ resolve_label_positions ysel xsel l, a = "middle right" ∨ a ∈ ALTERNATIVES)
    ∧ ((∀ p ∈ mkPairs (l.map (labelPos xsel ysel)), lpConflict p = false) →
        resolve_label_positions ysel xsel l = List.replicate l.length "middle right")
    ∧ (∀ p : LPair, lpConflict p = true ↔ (p.dx < 1/10 ∧ p.dy < 150))
    ∧ resolve_label_positions ysel xsel l
        = ((sortPairs (mkPairs (l.map (labelPos xsel ysel)))).foldl lpStepSpec
            (List.replicate l.length "middle right", [])).1
    ∧ resolve_label_positions selYcur selX [demoP, demoQ, demoR]
        = ["middle right", "top right", "bottom right"]
    ∧ (resolve_label_positions selYcur selX [demoP, demoQ, demoS, demoT]).getD 1 ""
        = "top right"
    ∧ (resolve_label_positions selYcur selX [demoP, demoQ, demoS, demoT]).getD 3 ""
        = "top right" := by
  refine ⟨?_, ?_, ?_, lpConflict_iff, ?_, by decide, by decide, by decide⟩
  · unfold resolve_label_positions
    rw [lpFold_length]
    simp
  · intro a ha
    refine lpFold_mem _ _ ?_ a ha
    intro b hb
    exact Or.inl (List.eq_of_mem_replicate hb)
  · intro h
    unfold resolve_label_positions
    have hsorted : ∀ p ∈ sortPairs (mkPairs (l.map (labelPos xsel ysel))),
        lpConflict p = false := by
      intro p hp
      refine h p ?_
      revert hp
      have hmem : ∀ (m : List LPair) (q : LPair), q ∈ sortPairs m → q ∈ m := by
        intro m
        unfold sortPairs
        induction m with
        | nil => intro q hq; exact hq
        | cons a m ih =>
          intro q hq
          rw [List.foldr_cons] at hq
          have hins : ∀ (t : List LPair), q ∈ insortPair a t → q = a ∨ q ∈ t := by
            intro t
            induction t with
            | nil => intro hq2; exact Or.inl (List.mem_singleton.mp hq2)
            | cons b t iht =>
              intro hq2
              unfold insortPair at hq2
              by_cases hle : pairLe a b
              · rw [if_pos hle] at hq2
                rcases List.mem_cons.mp hq2 with h1 | h1
                · exact Or.inl h1
                · exact Or.inr h1
              · rw [if_neg hle] at hq2
                rcases List.mem_cons.mp hq2 with h1 | h1
                · exact Or.inr (h1 ▸ List.mem_cons_self b t)
                · rcases iht h1 with h2 | h2
                  · exact Or.inl h2
                  · exact Or.inr (List.mem_cons_of_mem b h2)
          rcases hins _ hq with h1 | h1
          · exact h1 ▸ List.mem_cons_self a m
          · exact List.mem_cons_of_mem a (ih q h1)
      exact fun hp => hmem _ p hp
    rw [lpFold_no_conflict _ _ hsorted]
  · unfold resolve_label_positions
    rw [show lpStep = lpStepSpec from funext fun st => funext fun p => lpStep_eq_spec st p]

theorem C7_witness :
    (∀ p ∈ mkPairs ([demoP, demoS].map (labelPos selX selYcur)),
        lpConflict p = false)
    ∧ resolve_label_positions selYcur selX [demoP, demoS]
        = List.replicate 2 "middle right" :=
  ⟨by decide, (C7_label_resolver selYcur selX [demoP, demoS]).2.2.1 (by decide)⟩

/-- ASCII lowercasing of one code point (JavaScript `toLowerCase` restricted
to the ASCII range the filter inputs use). -/
def toLowerCode (c : Nat) : Nat := if 65 ≤ c ∧ c ≤ 90 then c + 32 else c

/-- Lowercase a whole string. -/
def lowerStr (s : Str) : Str := s.map toLowerCode

/-- JavaScript `trim` for the space character. -/
def trimSpaces (s : Str) : Str :=
  ((s.dropWhile (· == 32)).reverse.dropWhile (· == 32)).reverse

/-- JavaScript `haystack.indexOf(needle) !== -1`. -/
def containsSub (needle : Str) : Str → Bool
  | [] => needle.isEmpty
  | c :: rest => needle.isPrefixOf (c :: rest) || containsSub needle rest

/-- One record of the exported `STUDIOS` array (`studios_js`): the subset of
fields the embedded JavaScript reads, with `size_founded_num` already
defaulted through `or 10` at export time and every other optional field
exported raw (null stays null). -/
structure StudioJs where
  idx : Nat
  name : Str := []
  name_en : Str := []
  region : String := "domestic"
  founded : Option Int := none
  size_founded_num : ℚ := 10
  size_current_num : Option ℚ := none
  notable_works : List Str := []
  parent_company : Option String := none
  ownership_type : Option String := none
  business_model : Option String := none
  ai_adoption_level : Option String := none
  ai_adoption_detail : Option String := none
  primary_platform : List String := []
  ip_ownership_score : Option ℚ := none
  revenue_billion_yen : Option ℚ := none
  operating_margin : Option ℚ := none
  years_to_profitability : Option ℚ := none
deriving DecidableEq

/-- The `studios_js` export of one studio at global index `i`. -/
def exportStudio (i : Nat) (s : Studio) : StudioJs :=
  { idx := i, name := s.name, name_en := s.name_en, region := s.region,
    founded := s.founded, size_founded_num := jsOr10 s.size_founded_num,
    size_current_num := s.size_current_num, notable_works := s.notable_works,
    parent_company := s.parent_company, ownership_type := s.ownership_type,
    business_model := s.business_model, ai_adoption_level := s.ai_adoption_level,
    ai_adoption_detail := s.ai_adoption_detail, primary_platform := s.primary_platform,
    ip_ownership_score := s.ip_ownership_score,
    revenue_billion_yen := s.revenue_billion_yen,
    operating_margin := s.operating_margin,
    years_to_profitability := s.years_to_profitability }

/-- The state of the filter input controls.  `none` on a numeric bound
models an empty (or non-numeric, hence NaN-disabled) input field. -/
structure FilterSettings where
  yearMin : Option Int := none
  yearMax : Option Int := none
  showDom : Bool := true
  showIntl : Bool := true
  sizeMin : Option Int := none
  sizeMax : Option Int := none
  searchText : Str := []
  aiNone : Bool := true
  aiExp : Bool := true
  aiProd : Bool := true
  aiCore : Bool := true
  ownIndep : Bool := true
  ownSub : Bool := true
  ownGroup : Bool := true
deriving DecidableEq

/-- The year-minimum rejection clause
`yearMin && studio.founded && studio.founded < parseInt(yearMin)`: it can
only fire when both the bound and the founding year are truthy. -/
def yearMinExcl (f : FilterSettings) (s : StudioJs) : Bool :=
  match f.yearMin, s.founded with
  | some m, some y => decide (y ≠ 0) && decide (y < m)
  | _, _ => false

/-- The year-maximum rejection clause (see `yearMinExcl`). -/
def yearMaxExcl (f : FilterSettings) (s : StudioJs) : Bool :=
  match f.yearMax, s.founded with
  | some m, some y => decide (y ≠ 0) && decide (m < y)
  | _, _ => false

/-- The size value the numeric-range clause reads:
`(view === 'founded') ? studio.size_founded_num : studio.size_current_num`,
with JavaScript coercing a null `size_current_num` to 0 in the comparison. -/
def activeSizeVal (view : String) (s : StudioJs) : ℚ :=
  if view = "founded" then s.size_founded_num else (s.size_current_num).getD 0

/-- The size-minimum rejection clause as written in the source, with the
view ternary inlined. -/
def sizeMinExcl (view : String) (f : FilterSettings) (s : StudioJs) : Bool :=
  match f.sizeMin with
  | some m =>
    qlt (if view = "founded" then s.size_founded_num else (s.size_current_num).getD 0)
      ((m : Int) : ℚ)
  | none => false

/-- The size-maximum rejection clause as written in the source. -/
def sizeMaxExcl (view : String) (f : FilterSettings) (s : StudioJs) : Bool :=
  match f.sizeMax with
  | some m =>
    qlt ((m : Int) : ℚ)
      (if view = "founded" then s.size_founded_num else (s.size_current_num).getD 0)
  | none => false

/-- Specification-side size-minimum clause over an abstract size value. -/
def sizeMinExclV (v : ℚ) (f : FilterSettings) : Bool :=
  match f.sizeMin with
  | some m => qlt v ((m : Int) : ℚ)
  | none => false

/-- Specification-side size-maximum clause over an abstract size value. -/
def sizeMaxExclV (v : ℚ) (f : FilterSettings) : Bool :=
  match f.sizeMax with
  | some m => qlt ((m : Int) : ℚ) v
  | none => false

/-- The search haystack
`(studio.name + ' ' + studio.name_en + ' ' + notable_works.join(' ')).toLowerCase()`. -/
def searchHaystack (s : StudioJs) : Str :=
  lowerStr (s.name ++ [32] ++ s.name_en ++ [32] ++ joinSep [32] s.notable_works)

/-- The substring-search rejection clause. -/
def searchExcl (f : FilterSettings) (s : StudioJs) : Bool :=
  let needle := trimSpaces (lowerStr f.searchText)
  if needle.isEmpty then false
  else ! containsSub needle (searchHaystack s)

/-- The AI-level checkbox rejection clause
(`studio.ai_adoption_level || 'none'`). -/
def aiExcl (f : FilterSettings) (s : StudioJs) : Bool :=
  let lev := s.ai_adoption_level.getD "none"
  (decide (lev = "none") && !f.aiNone) || (decide (lev = "experimental") && !f.aiExp)
    || (decide (lev = "production") && !f.aiProd) || (decide (lev = "core") && !f.aiCore)

/-- The ownership checkbox rejection clause
(`studio.ownership_type || 'independent'`). -/
def ownExcl (f : FilterSettings) (s : StudioJs) : Bool :=
  let t := s.ownership_type.getD "independent"
  (decide (t = "independent") && !f.ownIndep) || (decide (t = "subsidiary") && !f.ownSub)
    || (decide (t = "group_company") && !f.ownGroup)

/-- Embedding of `studioMatchesFilter(studio)`, with the active view (read
through `getCurrentView()` in the source) passed explicitly; the clauses
appear in source order and each rejection returns false early. -/
def studioMatchesFilter (view : String) (f : FilterSettings) (s : StudioJs) : Bool :=
  if decide (s.region = "domestic") && !f.showDom then false
  else if decide (s.region = "international") && !f.showIntl then false
  else if yearMinExcl f s then false
  else if yearMaxExcl f s then false
  else if sizeMinExcl view f s then false
  else if sizeMaxExcl view f s then false
  else if searchExcl f s then false
  else if aiExcl f s then false
  else if ownExcl f s then false
  else true

/-- Specification-side predicate: identical clauses, but the numeric-range
clause reads an abstract size value supplied by the caller. -/
def studioMatchesFilterSized (sizeVal : ℚ) (f : FilterSettings) (s : StudioJs) : Bool :=
  if decide (s.region = "domestic") && !f.showDom then false
  else if decide (s.region = "international") && !f.showIntl then false
  else if yearMinExcl f s then false
  else if yearMaxExcl f s then false
  else if sizeMinExclV sizeVal f then false
  else if sizeMaxExclV sizeVal f then false
  else if searchExcl f s then false
  else if aiExcl f s then false
  else if ownExcl f s then false
  else true

/-- A studio small at founding and large now, for the C4 demonstration. -/
def c4S : StudioJs := { idx := 0, size_founded_num := 5, size_current_num := some 100 }

/-- A filter with only an employee-size minimum set. -/
def c4F : FilterSettings := { sizeMin := some 50 }

/-- Claim C4.  The numeric-range clause of the filter predicate reads the
size attribute of the currently active view: the predicate equals the
abstract-size predicate instantiated at `activeSizeVal`, which is the
founding-time size exactly when the founded view is active and the current
size otherwise; and the clause is genuinely view-dependent — the same
studio and bounds pass under one view and fail under another. -/
theorem C4_size_clause_uses_active_view :
    (∀ view f s, studioMatchesFilter view f s
        = studioMatchesFilterSized (activeSizeVal view s) f s)
    ∧ (∀ s, activeSizeVal "founded" s = s.size_founded_num)
    ∧ (∀ view s, view ≠ "founded" → activeSizeVal view s = (s.size_current_num).getD 0)
    ∧ studioMatchesFilter "founded" c4F c4S = false
    ∧ studioMatchesFilter "current" c4F c4S = true := by
  refine ⟨?_, fun s => rfl, ?_, by decide, by decide⟩
  · intro view f s
    rfl
  · intro view s h
    unfold activeSizeVal
    rw [if_neg h]

theorem C4_witness :
    activeSizeVal "current" c4S = (c4S.size_current_num).getD 0 :=
  C4_size_clause_uses_active_view.2.2.1 "current" c4S (by decide)

/-- A filter with year bounds set, for the C10 witness. -/
def c10F : FilterSettings := { yearMin := some 1990, yearMax := some 2000 }

/-- A studio with no founding year. -/
def c10S : StudioJs := { idx := 0 }

/-- Claim C10.  For a studio whose founding year is null or absent, the
year-range clause is vacuously satisfied: the predicate gives the same
verdict as with both year bounds cleared, for every view and every filter
state, so only the other clauses can exclude such a studio. -/
theorem C10_null_year_vacuous (view : String) (f : FilterSettings) (s : StudioJs)
    (h : s.founded = none) :
    studioMatchesFilter view f s
      = studioMatchesFilter view { f with yearMin := none, yearMax := none } s := by
  unfold studioMatchesFilter
  have hmin : yearMinExcl f s = false := by
    unfold yearMinExcl
    rw [h]
    cases f.yearMin <;> rfl
  have hmax : yearMaxExcl f s = false := by
    unfold yearMaxExcl
    rw [h]
    cases f.yearMax <;> rfl
  have hmin' : yearMinExcl { f with yearMin := none, yearMax := none } s = false := by
    unfold yearMinExcl
    rw [h]
  have hmax' : yearMaxExcl { f with yearMin := none, yearMax := none } s = false := by
    unfold yearMaxExcl
    rw [h]
  rw [hmin, hmax, hmin', hmax']
  rfl

theorem C10_witness :
    c10S.founded = none
    ∧ studioMatchesFilter "current" c10F c10S
        = studioMatchesFilter "current" { c10F with yearMin := none, yearMax := none } c10S :=
  ⟨rfl, C10_null_year_vacuous "current" c10F c10S rfl⟩

/-- A trace's `marker.opacity`: a scalar number, a per-point array (whose
entries may be null/undefined, modelled `none`), or null. -/
inductive OpVal where
  | num (v : ℚ)
  | arr (l : List (Option ℚ))
  | null
deriving DecidableEq

/-- A trace's `textfont.color`: scalar color string, per-point array, or
null. -/
inductive ColVal where
  | str (c : String)
  | arr (l : List (Option String))
  | null
deriving DecidableEq

/-- The per-trace visual state the filter engine reads and writes — exactly
the six fields `initOriginalData` snapshots (`x`, `y`, `hovertext`, `text`,
`marker.opacity`, `textfont.color`).  The same record doubles as the
snapshot, since the snapshot is a value copy of these fields. -/
structure TraceData where
  x : Option (List (Option ℚ)) := none
  y : Option (List (Option ℚ)) := none
  hovertext : Option (List Str) := none
  text : Option (List Str) := none
  marker_opacity : OpVal := OpVal.null
  textfont_color : ColVal := ColVal.null
deriving DecidableEq

instance : Inhabited TraceData := ⟨{}⟩

/-- The live branch's opacity read:
`typeof baseOpacity === 'number' ? baseOpacity : (baseOpacity ? baseOpacity[pi] : 1)`. -/
def opacityBaseAt (o : OpVal) (pi : Nat) : Option ℚ :=
  match o with
  | .num v => some v
  | .arr l => (l[pi]?).join
  | .null => some 1

/-- The live branch's text-color read (null base falls back to `'#000'`). -/
def colorBaseAt (c : ColVal) (pi : Nat) : Option String :=
  match c with
  | .str col => some col
  | .arr l => (l[pi]?).join
  | .null => some "#000"

/-- Row `pi` of a hovertext array (`''` when the array is null). -/
def hoverRowAt (ht : Option (List Str)) (pi : Nat) : Str :=
  match ht with
  | some hl => hl.getD pi []
  | none => []

/-- The inner fragment-filter loop of `applyFilters`: walk the member
indices positionally and keep `parts[si]` when the member matches and the
fragment is truthy (JavaScript `matchResults[studioIndices[si]] && parts[si]`);
a missing fragment (shorter split) is skipped like an undefined. -/
def filterHoverParts (m : Nat → Bool) : List Nat → List Str → List Str
  | [], _ => []
  | _ :: is, [] => filterHoverParts m is []
  | i :: is, p :: ps =>
    if m i && ! p.isEmpty then p :: filterHoverParts m is ps
    else filterHoverParts m is ps

/-- The specification-side fragment selection: the fragments of exactly the
matching members, in original member order. -/
def matchingParts (m : Nat → Bool) (indices : List Nat) (parts : List Str) : List Str :=
  ((indices.zip parts).filter (fun q => m q.1)).map Prod.snd

/-- One point's recomputed `(opacity, textColor, hovertext)` triple in
`applyFilters`: live points keep their original opacity/color and rebuild a
multi-member hover text by splitting on the separator and keeping matching
fragments; non-live points get opacity 0, transparent label color, and empty
hover text. -/
def pointRow (m : Nat → Bool) (orig : TraceData) (pi : Nat) (indices : List Nat) :
    Option ℚ × Option String × Str :=
  if indices.any m then
    (opacityBaseAt orig.marker_opacity pi,
     colorBaseAt orig.textfont_color pi,
     if decide (1 < indices.length) && decide (orig.hovertext ≠ none) then
       joinSep HOVER_SEP
         (filterHoverParts m indices (splitOnSep HOVER_SEP (hoverRowAt orig.hovertext pi)))
     else hoverRowAt orig.hovertext pi)
  else (some 0, some "rgba(0,0,0,0)", [])

/-- The per-point loop of `applyFilters` over a trace's point map, carrying
the running point index. -/
def pointRows (m : Nat → Bool) (orig : TraceData) :
    Nat → List (List Nat) → List (Option ℚ × Option String × Str)
  | _, [] => []
  | pi, ids :: rest => pointRow m orig pi ids :: pointRows m orig (pi + 1) rest

/-- The scatter-trace restyle of `applyFilters`: skip a trace whose snapshot
has no `x` (the `if (!orig || !orig.x) continue` guard), otherwise replace
`marker.opacity`, `textfont.color` and `hovertext` with the recomputed
arrays, leaving all other trace state untouched. -/
def applyFilterTrace (m : Nat → Bool) (pm : List (List Nat)) (orig cur : TraceData) :
    TraceData :=
  if orig.x = none then cur
  else
    let rows := pointRows m orig 0 pm
    { cur with marker_opacity := OpVal.arr (rows.map (fun r => r.1)),
               textfont_color := ColVal.arr (rows.map (fun r => r.2.1)),
               hovertext := some (rows.map (fun r => r.2.2)) }

theorem pointRows_length (m : Nat → Bool) (orig : TraceData) :
    ∀ (pm : List (List Nat)) (k : Nat), (pointRows m orig k pm).length = pm.length := by
  intro pm
  induction pm with
  | nil => intro k; rfl
  | cons ids rest ih =>
    intro k
    simp only [pointRows, List.length_cons, ih]

theorem pointRows_getElem? (m : Nat → Bool) (orig : TraceData) :
    ∀ (pm : List (List Nat)) (k n : Nat),
      (pointRows m orig k pm)[n]? = (pm[n]?).map (fun ids => pointRow m orig (k + n) ids) := by
  intro pm
  induction pm with
  | nil => intro k n; simp [pointRows]
  | cons ids rest ih =>
    intro k n
    cases n with
    | zero => simp [pointRows]
    | succ n =>
      simp only [pointRows, List.getElem?_cons_succ, ih (k + 1) n]
      have harith : k + 1 + n = k + (n + 1) := by omega
      rw [harith]

theorem filterHoverParts_eq_matching (m : Nat → Bool) :
    ∀ (indices : List Nat) (parts : List Str), indices.length = parts.length →
      (∀ p ∈ parts, p ≠ []) →
      filterHoverParts m indices parts = matchingParts m indices parts := by
  intro indices
  induction indices with
  | nil =>
    intro parts hlen _
    have : parts = [] := List.length_eq_zero.mp hlen.symm
    subst this
    rfl
  | cons i is ih =>
    intro parts hlen hne
    cases parts with
    | nil => cases hlen
    | cons p ps =>
      have hp : ¬ p.isEmpty := by
        have := hne p (List.mem_cons_self p ps)
        cases p with
        | nil => exact absurd rfl this
        | cons c cs => simp
      have hrec := ih ps (by simpa using hlen)
        (fun q hq => hne q (List.mem_cons_of_mem p hq))
      unfold filterHoverParts matchingParts
      cases hmi : m i with
      | true =>
        simp only [hmi, hp, Bool.true_and, Bool.not_false, if_true]
        unfold matchingParts at hrec
        simp [List.zip_cons_cons, List.filter_cons, hmi, hrec]
      | false =>
        simp only [hmi, Bool.false_and, Bool.false_eq_true, if_false]
        unfold matchingParts at hrec
        simp [List.zip_cons_cons, List.filter_cons, hmi, hrec]

/-- Claim C1.  Applying the filter to a scatter trace recomputes exactly the
per-point visual state: the trace keeps its coordinates, text and point
count (the new arrays have one entry per point-map entry, in order); a point
is live iff some provenance member matches; a live point keeps its original
per-point opacity and text color, keeps its hover text verbatim when it has
a single member, and, when it merges several members and the split of its
original hover text yields one nonempty fragment per member, gets exactly
the separator-joined fragments of the matching members in member order; a
non-live point gets opacity exactly 0, fully transparent text color and
empty hover text. -/
theorem C1_filter_recomputes_point_state (m : Nat → Bool) (pm : List (List Nat))
    (orig cur : TraceData) (hx : orig.x ≠ none) :
    (applyFilterTrace m pm orig cur).x = cur.x
    ∧ (applyFilterTrace m pm orig cur).y = cur.y
    ∧ (applyFilterTrace m pm orig cur).text = cur.text
    ∧ ∃ (op : List (Option ℚ)) (col : List (Option String)) (hv : List Str),
        (applyFilterTrace m pm orig cur).marker_opacity = OpVal.arr op
        ∧ (applyFilterTrace m pm orig cur).textfont_color = ColVal.arr col
        ∧ (applyFilterTrace m pm orig cur).hovertext = some hv
        ∧ op.length = pm.length ∧ col.length = pm.length ∧ hv.length = pm.length
        ∧ (∀ (pi : Nat) (ids : List Nat), pm[pi]? = some ids →
            (ids.any m = true →
              op[pi]? = some (opacityBaseAt orig.marker_opacity pi)
              ∧ col[pi]? = some (colorBaseAt orig.textfont_color pi)
              ∧ (¬ 1 < ids.length → hv[pi]? = some (hoverRowAt orig.hovertext pi))
              ∧ (∀ parts : List Str, orig.hovertext ≠ none → 1 < ids.length →
                  splitOnSep HOVER_SEP (hoverRowAt orig.hovertext pi) = parts →
                  ids.length = parts.length → (∀ p ∈ parts, p ≠ []) →
                  hv[pi]? = some (joinSep HOVER_SEP (matchingParts m ids parts))))
            ∧ (ids.any m = false →
              op[pi]? = some (some 0)
              ∧ col[pi]? = some (some "rgba(0,0,0,0)")
              ∧ hv[pi]? = some [])) := by
  unfold applyFilterTrace
  rw [if_neg hx]
  refine ⟨rfl, rfl, rfl,
    (pointRows m orig 0 pm).map (fun r => r.1),
    (pointRows m orig 0 pm).map (fun r => r.2.1),
    (pointRows m orig 0 pm).map (fun r => r.2.2),
    rfl, rfl, rfl, ?_, ?_, ?_, ?_⟩
  · rw [List.length_map, pointRows_length]
  · rw [List.length_map, pointRows_length]
  · rw [List.length_map, pointRows_length]
  · intro pi ids hpi
    have hrow : (pointRows m orig 0 pm)[pi]? = some (pointRow m orig pi ids) := by
      rw [pointRows_getElem?, hpi]
      simp
    constructor
    · intro hlive
      have hrowval : pointRow m orig pi ids
          = (opacityBaseAt orig.marker_opacity pi,
             colorBaseAt orig.textfont_color pi,
             if decide (1 < ids.length) && decide (orig.hovertext ≠ none) then
               joinSep HOVER_SEP
                 (filterHoverParts m ids
                   (splitOnSep HOVER_SEP (hoverRowAt orig.hovertext pi)))
             else hoverRowAt orig.hovertext pi) := by
        unfold pointRow
        rw [hlive]
        rfl
      refine ⟨?_, ?_, ?_, ?_⟩
      · rw [List.getElem?_map, hrow, hrowval]
        rfl
      · rw [List.getElem?_map, hrow, hrowval]
        rfl
      · intro hnot
        rw [List.getElem?_map, hrow, hrowval]
        have hcond : decide (1 < ids.length) = false := by
          simpa using hnot
        simp [hcond]
      · intro parts hht hgt hsplit hlen hne
        rw [List.getElem?_map, hrow, hrowval]
        have h1 : decide (1 < ids.length) = true := by simpa using hgt
        have h2 : decide (orig.hovertext ≠ none) = true := by simpa using hht
        simp only [h1, h2, Bool.and_self, if_true, Option.map_some]
        rw [hsplit, filterHoverParts_eq_matching m ids parts hlen hne]
        rfl
    · intro hdead
      have hrowval : pointRow m orig pi ids = (some 0, some "rgba(0,0,0,0)", []) := by
        unfold pointRow
        rw [hdead]
        rfl
      refine ⟨?_, ?_, ?_⟩ <;> rw [List.getElem?_map, hrow, hrowval] <;> rfl

/-- The point map of the C1 witness trace: a singleton point and a
two-member merged point. -/
def c1pm : List (List Nat) := [[0], [1, 2]]

/-- The witness predicate: only entity 1 matches. -/
def c1m : Nat → Bool := fun i => decide (i = 1)

/-- The witness snapshot trace. -/
def c1orig : TraceData :=
  { x := some [some 0, some 1], y := some [some 10, some 10],
    hovertext := some [[97], [98] ++ HOVER_SEP ++ [99]], text := none,
    marker_opacity := OpVal.num 1, textfont_color := ColVal.str "#abc" }

theorem C1_witness :
    c1orig.x ≠ none
    ∧ (applyFilterTrace c1m c1pm c1orig c1orig).x = c1orig.x :=
  ⟨by decide, (C1_filter_recomputes_point_state c1m c1pm c1orig c1orig (by decide)).1⟩

/-- The growth-line section of `applyFilters`: walk the trace's studio list
and null out both segment vertices (`si*3` and `si*3 + 1`) of every studio
failing the predicate, starting from the snapshot coordinates. -/
def applyGrowthList (m : Nat → Bool) (sl : List Nat) (v : List (Option ℚ)) : List (Option ℚ) :=
  sl.enum.foldl
    (fun acc p => if m p.2 then acc else (acc.set (3 * p.1) none).set (3 * p.1 + 1) none) v

theorem growthFold_length (m : Nat → Bool) :
    ∀ (pairs : List (Nat × Nat)) (v : List (Option ℚ)),
      (pairs.foldl
        (fun acc p => if m p.2 then acc
          else (acc.set (3 * p.1) none).set (3 * p.1 + 1) none) v).length = v.length := by
  intro pairs
  induction pairs with
  | nil => intro v; rfl
  | cons q rest ih =>
    intro v
    rw [List.foldl_cons, ih]
    cases hm : m q.2 <;> simp [hm]

theorem applyGrowthList_length (m : Nat → Bool) (sl : List Nat) (v : List (Option ℚ)) :
    (applyGrowthList m sl v).length = v.length :=
  growthFold_length m sl.enum v

theorem growthFold_getElem? (m : Nat → Bool) :
    ∀ (pairs : List (Nat × Nat)) (v : List (Option ℚ)) (k : Nat), k < v.length →
      ((∃ q ∈ pairs, m q.2 = false ∧ (k = 3 * q.1 ∨ k = 3 * q.1 + 1)) →
        (pairs.foldl
          (fun acc p => if m p.2 then acc
            else (acc.set (3 * p.1) none).set (3 * p.1 + 1) none) v)[k]? = some none)
      ∧ ((∀ q ∈ pairs, m q.2 = true ∨ (k ≠ 3 * q.1 ∧ k ≠ 3 * q.1 + 1)) →
        (pairs.foldl
          (fun acc p => if m p.2 then acc
            else (acc.set (3 * p.1) none).set (3 * p.1 + 1) none) v)[k]? = v[k]?) := by
  intro pairs
  induction pairs with
  | nil =>
    intro v k hk
    constructor
    · rintro ⟨q, hq, -⟩
      cases hq
    · intro _
      rfl
  | cons q rest ih =>
    intro v k hk
    rw [List.foldl_cons]
    by_cases hmq : m q.2 = true
    · have hstep : (if m q.2 then v else (v.set (3 * q.1) none).set (3 * q.1 + 1) none) = v := by
        rw [hmq]
        simp
      rw [hstep]
      constructor
      · rintro ⟨q', hq', hfail, hpos⟩
        rcases List.mem_cons.mp hq' with rfl | hq'
        · rw [hmq] at hfail
          cases hfail
        · exact (ih v k hk).1 ⟨q', hq', hfail, hpos⟩
      · intro hall
        exact (ih v k hk).2 (fun q' hq' => hall q' (List.mem_cons_of_mem q hq'))
    · have hmq' : m q.2 = false := by
        cases hm : m q.2
        · rfl
        · exact absurd hm hmq
      have hstep : (if m q.2 then v else (v.set (3 * q.1) none).set (3 * q.1 + 1) none)
          = (v.set (3 * q.1) none).set (3 * q.1 + 1) none := by
        rw [hmq']
        simp
      rw [hstep]
      have hlen2 : k < ((v.set (3 * q.1) none).set (3 * q.1 + 1) none).length := by
        simpa using hk
      constructor
      · rintro ⟨q', hq', hfail, hpos⟩
        by_cases hhit : k = 3 * q.1 ∨ k = 3 * q.1 + 1
        · have hv' : ((v.set (3 * q.1) none).set (3 * q.1 + 1) none)[k]? = some none := by
            rcases hhit with h | h
            · rw [List.getElem?_set, if_neg (by omega), List.getElem?_set,
                if_pos h.symm, if_pos (by omega)]
            · rw [List.getElem?_set, if_pos h.symm,
                if_pos (by simp only [List.length_set]; omega)]
          by_cases hrest : ∃ q2 ∈ rest, m q2.2 = false ∧ (k = 3 * q2.1 ∨ k = 3 * q2.1 + 1)
          · exact (ih _ k hlen2).1 hrest
          · have hall : ∀ q2 ∈ rest, m q2.2 = true ∨ (k ≠ 3 * q2.1 ∧ k ≠ 3 * q2.1 + 1) := by
              intro q2 hq2
              by_cases hm2 : m q2.2 = true
              · exact Or.inl hm2
              · refine Or.inr ?_
                have hm2' : m q2.2 = false := by
                  cases hmm : m q2.2
                  · rfl
                  · exact absurd hmm hm2
                constructor
                · intro hk2
                  exact hrest ⟨q2, hq2, hm2', Or.inl hk2⟩
                · intro hk2
                  exact hrest ⟨q2, hq2, hm2', Or.inr hk2⟩
            rw [(ih _ k hlen2).2 hall, hv']
        · rcases List.mem_cons.mp hq' with rfl | hq'2
          · exact absurd hpos hhit
          · exact (ih _ k hlen2).1 ⟨q', hq'2, hfail, hpos⟩
      · intro hall
        have hq0 := hall q (List.mem_cons_self q rest)
        rcases hq0 with hq0 | hq0
        · rw [hmq'] at hq0
          cases hq0
        · have hv' : ((v.set (3 * q.1) none).set (3 * q.1 + 1) none)[k]? = v[k]? := by
            rw [List.getElem?_set, if_neg (fun h => hq0.2 h.symm),
              List.getElem?_set, if_neg (fun h => hq0.1 h.symm)]
          rw [(ih _ k hlen2).2 (fun q2 hq2 => hall q2 (List.mem_cons_of_mem q hq2)), hv']

/-- `x_start = s.get("original_score_founded", s["original_score"])`; a null
score is read as 0 (on the growth subset the scores are present). -/
def growthXStart (s : Studio) : ℚ :=
  (match s.original_score_founded with
   | some v => some v
   | none => s.original_score).getD 0

/-- `x_end = s["original_score"]`. -/
def growthXEnd (s : Studio) : ℚ := (s.original_score).getD 0

/-- `y_start = s["size_founded_num"] or 10`. -/
def growthYStart (s : Studio) : ℚ := jsOr10 s.size_founded_num

/-- `y_end = s["size_current_num"]` (present and truthy on the growth
subset; a null is read as 0 here). -/
def growthYEnd (s : Studio) : ℚ := (s.size_current_num).getD 0

/-- One studio's x-coordinate segment of a gradient step: the interpolated
start/end vertices followed by the `None` separator.  `x_start` is
`s.get("original_score_founded", s["original_score"])` and `x_end` is
`s["original_score"]` (nulls read as 0; on the growth subset these scores
are present). -/
def growthSegX (t0 t1 : ℚ) (s : Studio) : List (Option ℚ) :=
  [some (qadd (growthXStart s) (qmul (qsub (growthXEnd s) (growthXStart s)) t0)),
   some (qadd (growthXStart s) (qmul (qsub (growthXEnd s) (growthXStart s)) t1)),
   none]

/-- One studio's y-coordinate segment of a gradient step
(`y_start = size_founded_num or 10`, `y_end = size_current_num`). -/
def growthSegY (t0 t1 : ℚ) (s : Studio) : List (Option ℚ) :=
  [some (qadd (growthYStart s) (qmul (qsub (growthYEnd s) (growthYStart s)) t0)),
   some (qadd (growthYStart s) (qmul (qsub (growthYEnd s) (growthYStart s)) t1)),
   none]

/-- The x array of one growth-line trace (`x_seg`), one 3-entry block per
studio in list order. -/
def growthLineX (t0 t1 : ℚ) (l : List Studio) : List (Option ℚ) :=
  l.flatMap (growthSegX t0 t1)

/-- The y array of one growth-line trace (`y_seg`). -/
def growthLineY (t0 t1 : ℚ) (l : List Studio) : List (Option ℚ) :=
  l.flatMap (growthSegY t0 t1)

/-- The growth-line restyle of `applyFilters` at trace level: replace the
live x/y with the filtered copies of the snapshot coordinates. -/
def applyGrowthTrace (m : Nat → Bool) (sl : List Nat) (orig cur : TraceData) : TraceData :=
  if orig.x = none then cur
  else { cur with x := some (applyGrowthList m sl (orig.x.getD [])),
                  y := some (applyGrowthList m sl (orig.y.getD [])) }

theorem flatMap_three_getElem? (f : Studio → List (Option ℚ))
    (hf : ∀ s, (f s).length = 3) :
    ∀ (l : List Studio) (si r : Nat), r < 3 →
      (l.flatMap f)[3 * si + r]? = (l[si]?).bind (fun s => (f s)[r]?) := by
  intro l
  induction l with
  | nil => intro si r _; simp
  | cons s l ih =>
    intro si r hr
    rw [List.flatMap_cons]
    cases si with
    | zero =>
      rw [List.getElem?_append_left (by rw [hf]; omega)]
      simp
    | succ si =>
      have hge : (f s).length ≤ 3 * (si + 1) + r := by rw [hf]; omega
      rw [List.getElem?_append_right hge]
      have harith : 3 * (si + 1) + r - (f s).length = 3 * si + r := by rw [hf]; omega
      rw [harith, ih si r hr]
      simp

theorem growthLineX_length (t0 t1 : ℚ) (l : List Studio) :
    (growthLineX t0 t1 l).length = 3 * l.length := by
  unfold growthLineX
  induction l with
  | nil => rfl
  | cons s l ih => simp only [List.flatMap_cons, List.length_append, ih, growthSegX,
      List.length_cons, List.length_nil, List.length_cons]; omega

theorem growthLineY_length (t0 t1 : ℚ) (l : List Studio) :
    (growthLineY t0 t1 l).length = 3 * l.length := by
  unfold growthLineY
  induction l with
  | nil => rfl
  | cons s l ih => simp only [List.flatMap_cons, List.length_append, ih, growthSegY,
      List.length_cons, List.length_nil, List.length_cons]; omega

theorem applyGrowthList_getElem? (m : Nat → Bool) (sl : List Nat) (v : List (Option ℚ))
    (k : Nat) (hk : k < v.length) :
    ((∃ q ∈ sl.enum, m q.2 = false ∧ (k = 3 * q.1 ∨ k = 3 * q.1 + 1)) →
        (applyGrowthList m sl v)[k]? = some none)
    ∧ ((∀ q ∈ sl.enum, m q.2 = true ∨ (k ≠ 3 * q.1 ∧ k ≠ 3 * q.1 + 1)) →
        (applyGrowthList m sl v)[k]? = v[k]?) :=
  growthFold_getElem? m sl.enum v k hk

/-- Claim C8.  Restyling a growth trajectory-line trace under a predicate
nulls both coordinates of exactly the segments whose endpoint studio fails
the predicate: for the trace built from studio list `l` (whose recorded
studio indices are `l.map idx`, one 3-entry vertex block per studio), a
failing studio's two segment vertices become null in both x and y, a
passing studio's vertices and every block separator keep their snapshot
values verbatim, the array lengths are unchanged, and at trace level only
the x/y fields are replaced. -/
theorem C8_growth_line_filter (m : Nat → Bool) (t0 t1 : ℚ) (l : List Studio) :
    (applyGrowthList m (l.map Studio.idx) (growthLineX t0 t1 l)).length
        = (growthLineX t0 t1 l).length
    ∧ (applyGrowthList m (l.map Studio.idx) (growthLineY t0 t1 l)).length
        = (growthLineY t0 t1 l).length
    ∧ (∀ (si : Nat) (s : Studio), l[si]? = some s →
        (m s.idx = false →
          (applyGrowthList m (l.map Studio.idx) (growthLineX t0 t1 l))[3 * si]? = some none
          ∧ (applyGrowthList m (l.map Studio.idx) (growthLineX t0 t1 l))[3 * si + 1]?
              = some none
          ∧ (applyGrowthList m (l.map Studio.idx) (growthLineY t0 t1 l))[3 * si]? = some none
          ∧ (applyGrowthList m (l.map Studio.idx) (growthLineY t0 t1 l))[3 * si + 1]?
              = some none)
        ∧ (m s.idx = true →
          (applyGrowthList m (l.map Studio.idx) (growthLineX t0 t1 l))[3 * si]?
              = (growthLineX t0 t1 l)[3 * si]?
          ∧ (applyGrowthList m (l.map Studio.idx) (growthLineX t0 t1 l))[3 * si + 1]?
              = (growthLineX t0 t1 l)[3 * si + 1]?
          ∧ (applyGrowthList m (l.map Studio.idx) (growthLineY t0 t1 l))[3 * si]?
              = (growthLineY t0 t1 l)[3 * si]?
          ∧ (applyGrowthList m (l.map Studio.idx) (growthLineY t0 t1 l))[3 * si + 1]?
              = (growthLineY t0 t1 l)[3 * si + 1]?)
        ∧ (applyGrowthList m (l.map Studio.idx) (growthLineX t0 t1 l))[3 * si + 2]?
            = (growthLineX t0 t1 l)[3 * si + 2]?
        ∧ (applyGrowthList m (l.map Studio.idx) (growthLineY t0 t1 l))[3 * si + 2]?
            = (growthLineY t0 t1 l)[3 * si + 2]?)
    ∧ (∀ cur : TraceData,
        (applyGrowthTrace m (l.map Studio.idx)
            { x := some (growthLineX t0 t1 l), y := some (growthLineY t0 t1 l) } cur).x
          = some (applyGrowthList m (l.map Studio.idx) (growthLineX t0 t1 l))
        ∧ (applyGrowthTrace m (l.map Studio.idx)
            { x := some (growthLineX t0 t1 l), y := some (growthLineY t0 t1 l) } cur).y
          = some (applyGrowthList m (l.map Studio.idx) (growthLineY t0 t1 l))) := by
  have hxlen := growthLineX_length t0 t1 l
  have hylen := growthLineY_length t0 t1 l
  refine ⟨applyGrowthList_length m _ _, applyGrowthList_length m _ _, ?_, ?_⟩
  · intro si s hs
    have hsi : si < l.length := by
      by_contra hcon
      rw [List.getElem?_eq_none (by omega)] at hs
      cases hs
    have hmem : (si, s.idx) ∈ (l.map Studio.idx).enum := by
      rw [List.mem_enum_iff_getElem?]
      rw [List.getElem?_map, hs]
      rfl
    have hqchar : ∀ q ∈ (l.map Studio.idx).enum, (l.map Studio.idx)[q.1]? = some q.2 :=
      fun q hq => List.mem_enum_iff_getElem?.mp hq
    refine ⟨?_, ?_, ?_, ?_⟩
    · intro hdead
      refine ⟨?_, ?_, ?_, ?_⟩
      · exact (applyGrowthList_getElem? m _ _ _ (by omega)).1
          ⟨(si, s.idx), hmem, hdead, by omega⟩
      · exact (applyGrowthList_getElem? m _ _ _ (by omega)).1
          ⟨(si, s.idx), hmem, hdead, by omega⟩
      · exact (applyGrowthList_getElem? m _ _ _ (by omega)).1
          ⟨(si, s.idx), hmem, hdead, by omega⟩
      · exact (applyGrowthList_getElem? m _ _ _ (by omega)).1
          ⟨(si, s.idx), hmem, hdead, by omega⟩
    · intro hlive
      have hall : ∀ (r : Nat), r < 2 → ∀ q ∈ (l.map Studio.idx).enum,
          m q.2 = true ∨ (3 * si + r ≠ 3 * q.1 ∧ 3 * si + r ≠ 3 * q.1 + 1) := by
        intro r hr q hq
        by_cases hqsi : q.1 = si
        · have : (l.map Studio.idx)[si]? = some q.2 := by
            rw [← hqsi]
            exact hqchar q hq
          rw [List.getElem?_map, hs] at this
          have hq2 : q.2 = s.idx := by
            simpa using this.symm
          exact Or.inl (hq2 ▸ hlive)
        · exact Or.inr (by omega)
      refine ⟨?_, ?_, ?_, ?_⟩
      · exact (applyGrowthList_getElem? m _ _ _ (by omega)).2
          (by simpa using hall 0 (by omega))
      · exact (applyGrowthList_getElem? m _ _ _ (by omega)).2 (hall 1 (by omega))
      · exact (applyGrowthList_getElem? m _ _ _ (by omega)).2
          (by simpa using hall 0 (by omega))
      · exact (applyGrowthList_getElem? m _ _ _ (by omega)).2 (hall 1 (by omega))
    · exact (applyGrowthList_getElem? m _ _ _ (by omega)).2
        (fun q hq => Or.inr (by omega))
    · exact (applyGrowthList_getElem? m _ _ _ (by omega)).2
        (fun q hq => Or.inr (by omega))
  · intro cur
    constructor
    · unfold applyGrowthTrace
      rw [if_neg (by simp)]
      rfl
    · unfold applyGrowthTrace
      rw [if_neg (by simp)]
      rfl

/-- The witness studio for C8. -/
def c8S : Studio :=
  { idx := 7, original_score := some 1, original_score_founded := some 0,
    size_founded_num := some 5, size_current_num := some 50 }

theorem C8_witness :
    ([c8S][0]? = some c8S)
    ∧ (applyGrowthList (fun _ => false) ([c8S].map Studio.idx)
        (growthLineX 0 1 [c8S]))[0]? = some none :=
  ⟨rfl, (((C8_growth_line_filter (fun _ => false) 0 1 [c8S]).2.2.1 0 c8S rfl).1 rfl).1⟩

/-- The scatter-trace branch of `resetFilters`: a scalar snapshot opacity is
broadcast into an array of length `orig.x.length` (only an empty broadcast
falls back to the snapshot value verbatim), while text color and hover text
are restored verbatim from the snapshot. -/
def resetTrace (orig cur : TraceData) : TraceData :=
  let opArr : List (Option ℚ) :=
    match orig.marker_opacity with
    | .num v => (List.range (orig.x.getD []).length).map (fun _ => some v)
    | .arr l => l
    | .null => []
  { cur with
    marker_opacity := if 0 < opArr.length then OpVal.arr opArr else orig.marker_opacity,
    textfont_color := orig.textfont_color,
    hovertext := orig.hovertext }

/-- The growth-line branch of `resetFilters`: restore the snapshot
coordinates verbatim. -/
def resetGrowthTrace (orig cur : TraceData) : TraceData :=
  { cur with x := orig.x, y := orig.y }

/-- One user action on the filter engine, at single-trace granularity. -/
inductive FilterOp where
  | apply (m : Nat → Bool)
  | reset

/-- Run a sequence of filter-apply / reset actions against one scatter trace
whose snapshot is `orig`. -/
def runScatterOps (pm : List (List Nat)) (orig : TraceData) :
    TraceData → List FilterOp → TraceData
  | cur, [] => cur
  | cur, op :: rest =>
    runScatterOps pm orig
      (match op with
       | .apply m => applyFilterTrace m pm orig cur
       | .reset => resetTrace orig cur) rest

/-- Run a sequence of filter-apply / reset actions against one growth-line
trace whose snapshot is `orig`. -/
def runGrowthOps (sl : List Nat) (orig : TraceData) :
    TraceData → List FilterOp → TraceData
  | cur, [] => cur
  | cur, op :: rest =>
    runGrowthOps sl orig
      (match op with
       | .apply m => applyGrowthTrace m sl orig cur
       | .reset => resetGrowthTrace orig cur) rest

theorem traceData_fields_eq {a b : TraceData} (hx : a.x = b.x) (hy : a.y = b.y)
    (hh : a.hovertext = b.hovertext) (ht : a.text = b.text)
    (hm : a.marker_opacity = b.marker_opacity) (hc : a.textfont_color = b.textfont_color) :
    a = b := by
  cases a
  cases b
  simp_all

/-- The effective per-point opacity of a trace (scalar broadcast, array
entry, or the null fallback 1). -/
def effOpacityAt (t : TraceData) (pi : Nat) : Option ℚ :=
  opacityBaseAt t.marker_opacity pi

theorem runScatterOps_append (pm : List (List Nat)) (orig : TraceData) :
    ∀ (a b : List FilterOp) (cur : TraceData),
      runScatterOps pm orig cur (a ++ b)
        = runScatterOps pm orig (runScatterOps pm orig cur a) b := by
  intro a
  induction a with
  | nil => intro b cur; rfl
  | cons op a ih =>
    intro b cur
    simp only [List.cons_append, runScatterOps]
    exact ih b _

theorem applyFilterTrace_keeps_geometry (m : Nat → Bool) (pm : List (List Nat))
    (orig cur : TraceData) :
    (applyFilterTrace m pm orig cur).x = cur.x
    ∧ (applyFilterTrace m pm orig cur).y = cur.y
    ∧ (applyFilterTrace m pm orig cur).text = cur.text := by
  unfold applyFilterTrace
  by_cases hx : orig.x = none
  · rw [if_pos hx]
    exact ⟨rfl, rfl, rfl⟩
  · rw [if_neg hx]
    exact ⟨rfl, rfl, rfl⟩

theorem runScatterOps_keeps_geometry (pm : List (List Nat)) (orig : TraceData) :
    ∀ (ops : List FilterOp) (cur : TraceData),
      (runScatterOps pm orig cur ops).x = cur.x
      ∧ (runScatterOps pm orig cur ops).y = cur.y
      ∧ (runScatterOps pm orig cur ops).text = cur.text := by
  intro ops
  induction ops with
  | nil => intro cur; exact ⟨rfl, rfl, rfl⟩
  | cons op ops ih =>
    intro cur
    cases op with
    | apply m =>
      have h := ih (applyFilterTrace m pm orig cur)
      have hs := applyFilterTrace_keeps_geometry m pm orig cur
      exact ⟨h.1.trans hs.1, h.2.1.trans hs.2.1, h.2.2.trans hs.2.2⟩
    | reset =>
      have h := ih (resetTrace orig cur)
      exact ⟨h.1, h.2.1, h.2.2⟩

theorem resetTrace_effOpacity (orig cur : TraceData) (pi : Nat)
    (hpi : pi < (orig.x.getD []).length) :
    effOpacityAt (resetTrace orig cur) pi = effOpacityAt orig pi := by
  unfold resetTrace effOpacityAt
  cases hop : orig.marker_opacity with
  | num v =>
    by_cases hlen : 0 < (orig.x.getD []).length
    · simp only [hop]
      rw [if_pos (by simpa using hlen)]
      show ((List.range (orig.x.getD []).length).map (fun _ => some v))[pi]?.join = some v
      rw [List.getElem?_map, List.getElem?_range hpi]
      rfl
    · omega
  | arr l =>
    simp only [hop]
    by_cases hlen : 0 < l.length
    · rw [if_pos hlen]
    · rw [if_neg hlen]
  | null =>
    simp only [hop]
    rw [if_neg (by simp)]

theorem applyGrowthTrace_keeps_style (m : Nat → Bool) (sl : List Nat)
    (orig cur : TraceData) :
    (applyGrowthTrace m sl orig cur).hovertext = cur.hovertext
    ∧ (applyGrowthTrace m sl orig cur).text = cur.text
    ∧ (applyGrowthTrace m sl orig cur).marker_opacity = cur.marker_opacity
    ∧ (applyGrowthTrace m sl orig cur).textfont_color = cur.textfont_color := by
  unfold applyGrowthTrace
  by_cases hx : orig.x = none
  · rw [if_pos hx]
    exact ⟨rfl, rfl, rfl, rfl⟩
  · rw [if_neg hx]
    exact ⟨rfl, rfl, rfl, rfl⟩

theorem runGrowthOps_keeps_style (sl : List Nat) (orig : TraceData) :
    ∀ (ops : List FilterOp) (cur : TraceData),
      (runGrowthOps sl orig cur ops).hovertext = cur.hovertext
      ∧ (runGrowthOps sl orig cur ops).text = cur.text
      ∧ (runGrowthOps sl orig cur ops).marker_opacity = cur.marker_opacity
      ∧ (runGrowthOps sl orig cur ops).textfont_color = cur.textfont_color := by
  intro ops
  induction ops with
  | nil => intro cur; exact ⟨rfl, rfl, rfl, rfl⟩
  | cons op ops ih =>
    intro cur
    cases op with
    | apply m =>
      have h := ih (applyGrowthTrace m sl orig cur)
      have hs := applyGrowthTrace_keeps_style m sl orig cur
      exact ⟨h.1.trans hs.1, h.2.1.trans hs.2.1, h.2.2.1.trans hs.2.2.1,
        h.2.2.2.trans hs.2.2.2⟩
    | reset =>
      have h := ih (resetGrowthTrace orig cur)
      exact ⟨h.1, h.2.1, h.2.2.1, h.2.2.2⟩

theorem runGrowthOps_append (sl : List Nat) (orig : TraceData) :
    ∀ (a b : List FilterOp) (cur : TraceData),
      runGrowthOps sl orig cur (a ++ b)
        = runGrowthOps sl orig (runGrowthOps sl orig cur a) b := by
  intro a
  induction a with
  | nil => intro b cur; rfl
  | cons op a ih =>
    intro b cur
    simp only [List.cons_append, runGrowthOps]
    exact ih b _

/-- The C3 counterexample trace: a one-point scatter trace whose snapshot
opacity is the scalar 1. -/
def c3orig : TraceData :=
  { x := some [some 0], y := some [some 10], hovertext := some [[97]],
    marker_opacity := OpVal.num 1, textfont_color := ColVal.str "#fff" }

/-- Claim C3, counterexample.  Resetting the filters does not restore the
initial visual state verbatim: on a trace whose snapshot `marker.opacity` is
the scalar 1 (every scatter trace is created with scalar opacity), the reset
restyles opacity to the broadcast array `[1]`, which differs from the
scalar; applying the match-all predicate broadcasts it likewise.  The
per-point effective opacity is restored, but not the recorded value. -/
theorem C3_counterexample :
    resetTrace c3orig c3orig ≠ c3orig
    ∧ (resetTrace c3orig c3orig).marker_opacity ≠ c3orig.marker_opacity
    ∧ (applyFilterTrace (fun _ => true) [[0]] c3orig c3orig).marker_opacity
        ≠ c3orig.marker_opacity := by
  refine ⟨?_, by decide, by decide⟩
  intro h
  have := congrArg TraceData.marker_opacity h
  revert this
  decide

/-- Claim C3, amended.  After any sequence of filter applications ending in
a reset, a scatter trace's hover text, text color, coordinates and text are
restored verbatim from the snapshot and the per-point effective opacity
equals the snapshot's, but a scalar snapshot opacity comes back as a
broadcast array rather than the scalar; the post-reset state is independent
of the intervening history, because every mutation is computed from the
snapshot and the current predicate alone; and a growth-line trace is
restored fully verbatim. -/
theorem C3_amended (pm : List (List Nat)) (orig : TraceData) (ops : List FilterOp) :
    (runScatterOps pm orig orig (ops ++ [FilterOp.reset])).hovertext = orig.hovertext
    ∧ (runScatterOps pm orig orig (ops ++ [FilterOp.reset])).textfont_color
        = orig.textfont_color
    ∧ (runScatterOps pm orig orig (ops ++ [FilterOp.reset])).x = orig.x
    ∧ (runScatterOps pm orig orig (ops ++ [FilterOp.reset])).y = orig.y
    ∧ (runScatterOps pm orig orig (ops ++ [FilterOp.reset])).text = orig.text
    ∧ (∀ pi : Nat, pi < (orig.x.getD []).length →
        effOpacityAt (runScatterOps pm orig orig (ops ++ [FilterOp.reset])) pi
          = effOpacityAt orig pi)
    ∧ runScatterOps pm orig orig (ops ++ [FilterOp.reset])
        = runScatterOps pm orig orig [FilterOp.reset]
    ∧ (∀ (sl : List Nat) (gorig : TraceData) (gops : List FilterOp),
        runGrowthOps sl gorig gorig (gops ++ [FilterOp.reset]) = gorig) := by
  have hrun : runScatterOps pm orig orig (ops ++ [FilterOp.reset])
      = resetTrace orig (runScatterOps pm orig orig ops) := by
    rw [runScatterOps_append]
    rfl
  rcases runScatterOps_keeps_geometry pm orig ops orig with ⟨hgx, hgy, hgt⟩
  have hhist : resetTrace orig (runScatterOps pm orig orig ops) = resetTrace orig orig := by
    refine traceData_fields_eq ?_ ?_ ?_ ?_ ?_ ?_
    · exact hgx
    · exact hgy
    · rfl
    · exact hgt
    · rfl
    · rfl
  refine ⟨?_, ?_, ?_, ?_, ?_, ?_, ?_, ?_⟩
  · rw [hrun]; rfl
  · rw [hrun]; rfl
  · rw [hrun]; exact hgx
  · rw [hrun]; exact hgy
  · rw [hrun]; exact hgt
  · intro pi hpi
    rw [hrun]
    exact resetTrace_effOpacity orig _ pi hpi
  · rw [hrun, hhist]
    rfl
  · intro sl gorig gops
    have hrunG : runGrowthOps sl gorig gorig (gops ++ [FilterOp.reset])
        = resetGrowthTrace gorig (runGrowthOps sl gorig gorig gops) := by
      rw [runGrowthOps_append]
      rfl
    rcases runGrowthOps_keeps_style sl gorig gops gorig with ⟨hk1, hk2, hk3, hk4⟩
    rw [hrunG]
    exact traceData_fields_eq rfl rfl hk1 hk2 hk3 hk4

theorem C3_amended_witness :
    (0 : Nat) < (c3orig.x.getD []).length
    ∧ effOpacityAt (runScatterOps [[0]] c3orig c3orig
        ([FilterOp.apply (fun _ => false)] ++ [FilterOp.reset])) 0 = effOpacityAt c3orig 0 :=
  ⟨by decide,
   (C3_amended [[0]] c3orig [FilterOp.apply (fun _ => false)]).2.2.2.2.2.1 0 (by decide)⟩

/-- `make_visibility(view_key)`: all traces hidden except the view's
recorded indices. -/
def mkVisibility (vmap : List (String × List Nat)) (n : Nat) (v : String) : List Bool :=
  ((alookup v vmap).getD []).foldl (fun acc idx => acc.set idx true) (List.replicate n false)

/-- The inner view scan of `getCurrentView()`: the first view (in
`VISIBILITY_MAP` order, skipping the pseudo-view `growth_lines`) whose index
list contains trace `i`. -/
def findView (vmap : List (String × List Nat)) (i : Nat) : Option String :=
  (vmap.find? (fun p => decide (p.1 ≠ "growth_lines") && p.2.contains i)).map Prod.fst

/-- The trace scan of `getCurrentView()`: walk trace indices in order; on
the first visible trace belonging to some view, return that view; default
`"founded"`. -/
def getCurrentViewAux (vmap : List (String × List Nat)) : Nat → List Bool → String
  | _, [] => "founded"
  | k, b :: rest =>
    if b then
      match findView vmap k with
      | some v => v
      | none => getCurrentViewAux vmap (k + 1) rest
    else getCurrentViewAux vmap (k + 1) rest

/-- `getCurrentView()`. -/
def getCurrentView (vmap : List (String × List Nat)) (vis : List Bool) : String :=
  getCurrentViewAux vmap 0 vis

/-- The static data of the generated page: the exported studios, the
visibility map, the trace count, the per-trace point maps and growth-line
studio lists, and the snapshots captured by `initOriginalData`. -/
structure Engine where
  studios : List StudioJs
  vmap : List (String × List Nat) := []
  n : Nat := 0
  tpm : List (Option (List (List Nat))) := []
  glm : List (Option (List Nat)) := []
  snaps : List TraceData := []

/-- `matchResults`: the predicate evaluated per entity index under the
given active view. -/
def matchArr (e : Engine) (view : String) (f : FilterSettings) : Nat → Bool :=
  fun i =>
    match e.studios[i]? with
    | some s => studioMatchesFilter view f s
    | none => false

/-- The restyle loops of `applyFilters` over all traces: scatter traces
with a point map get the per-point restyle, growth-line traces get the
coordinate nulling, others are untouched. -/
def applyTraces (e : Engine) (m : Nat → Bool) (ts : List TraceData) : List TraceData :=
  ts.enum.map (fun p =>
    let t1 := match (e.tpm[p.1]?).join with
      | some pmap => applyFilterTrace m pmap ((e.snaps[p.1]?).getD default) p.2
      | none => p.2
    match (e.glm[p.1]?).join with
    | some sl => applyGrowthTrace m sl ((e.snaps[p.1]?).getD default) t1
    | none => t1)

/-- The mutable browser state: current filter inputs, per-trace visibility,
live trace data, and whether a deferred filter re-application is pending. -/
structure SysState where
  filters : FilterSettings
  vis : List Bool
  traces : List TraceData
  pending : Bool := false
deriving DecidableEq

/-- One full `applyFilters()` invocation: evaluate the predicate under the
view read from the current visibility and restyle every trace. -/
def applyAllStep (e : Engine) (st : SysState) : SysState :=
  { st with
    traces := applyTraces e (matchArr e (getCurrentView e.vmap st.vis) st.filters) st.traces }

/-- The discrete user/browser events. -/
inductive UiEvent where
  | clickView (v : String)
  | timerFire
  | applyBtn
  | setFilters (f : FilterSettings)

/-- The event step function.  A view button click updates the visibility
and schedules (`setTimeout(..., 100)`) a filter re-application; the timer
firing performs it; the 適用 button applies immediately; editing the filter
inputs stores the new predicate fields. -/
def stepEv (e : Engine) (st : SysState) : UiEvent → SysState
  | .clickView v => { st with vis := mkVisibility e.vmap e.n v, pending := true }
  | .timerFire => if st.pending then { applyAllStep e st with pending := false } else st
  | .applyBtn => applyAllStep e st
  | .setFilters f => { st with filters := f }

/-- The C9 counterexample studio: small at founding, large now. -/
def c9S : StudioJs :=
  { idx := 0, founded := some 2000, size_founded_num := 5, size_current_num := some 100 }

/-- A one-point trace used for both traces of the C9 engine. -/
def c9T : TraceData :=
  { x := some [some 0], y := some [some 10], hovertext := some [[97]],
    marker_opacity := OpVal.num 1, textfont_color := ColVal.str "#aaa" }

/-- The C9 engine: one studio, a founded-view trace 0 and a current-view
trace 1. -/
def c9E : Engine :=
  { studios := [c9S], vmap := [("founded", [0]), ("current", [1])], n := 2,
    tpm := [some [[0]], some [[0]]], glm := [none, none], snaps := [c9T, c9T] }

/-- An employee-size minimum of 50. -/
def c9F : FilterSettings := { sizeMin := some 50 }

/-- The settled state on the founded view with the filter applied. -/
def c9st0 : SysState :=
  applyAllStep c9E
    { filters := c9F, vis := mkVisibility c9E.vmap c9E.n "founded",
      traces := [c9T, c9T], pending := false }

/-- The state right after clicking the current-view button. -/
def c9st1 : SysState := stepEv c9E c9st0 (UiEvent.clickView "current")

/-- Claim C9, counterexample.  A view-switch click is not a single atomic
step: it leaves a pending deferred filter re-application, and when the
timer later fires the per-point visuals change (here the studio is hidden
under the founded-view size but visible under the current-view size) while
the visibility is already that of the new view — so an intermediate state
differing from the settled one is observable after the switch event. -/
theorem C9_counterexample :
    c9st1.pending = true
    ∧ (stepEv c9E c9st1 UiEvent.timerFire).traces ≠ c9st1.traces
    ∧ (stepEv c9E c9st1 UiEvent.timerFire).vis = c9st1.vis := by
  decide

theorem foldl_set_true_length :
    ∀ (idxs : List Nat) (start : List Bool),
      (idxs.foldl (fun acc idx => acc.set idx true) start).length = start.length := by
  intro idxs
  induction idxs with
  | nil => intro start; rfl
  | cons j idxs ih =>
    intro start
    rw [List.foldl_cons, ih]
    simp

theorem foldl_set_true_getElem? :
    ∀ (idxs : List Nat) (start : List Bool) (i : Nat), i < start.length →
      (idxs.foldl (fun acc idx => acc.set idx true) start)[i]?
        = if i ∈ idxs then some true else start[i]? := by
  intro idxs
  induction idxs with
  | nil => intro start i hi; simp
  | cons j idxs ih =>
    intro start i hi
    rw [List.foldl_cons, ih _ i (by simpa using hi)]
    by_cases hmem : i ∈ idxs
    · rw [if_pos hmem, if_pos (List.mem_cons_of_mem j hmem)]
    · rw [if_neg hmem]
      by_cases hij : i = j
      · subst hij
        rw [if_pos (List.mem_cons_self i idxs)]
        rw [List.getElem?_set, if_pos rfl, if_pos hi]
      · rw [if_neg (by simp [hij, hmem])]
        rw [List.getElem?_set, if_neg (fun h => hij h.symm)]

theorem mkVisibility_length (vmap : List (String × List Nat)) (n : Nat) (v : String) :
    (mkVisibility vmap n v).length = n := by
  unfold mkVisibility
  rw [foldl_set_true_length]
  simp

theorem mkVisibility_getElem? (vmap : List (String × List Nat)) (n : Nat) (v : String)
    (lv : List Nat) (h : alookup v vmap = some lv) (i : Nat) (hi : i < n) :
    (mkVisibility vmap n v)[i]? = some (decide (i ∈ lv)) := by
  unfold mkVisibility
  rw [h]
  rw [foldl_set_true_getElem? _ _ i (by simpa using hi)]
  by_cases hmem : i ∈ lv
  · simp only [Option.getD_some]
    rw [if_pos hmem]
    simp [hmem]
  · simp only [Option.getD_some]
    rw [if_neg hmem]
    rw [List.getElem?_replicate]
    simp [hmem, hi]

theorem getCurrentViewAux_eq (vmap : List (String × List Nat)) (v : String) :
    ∀ (vis : List Bool) (k : Nat),
      (∃ j : Nat, vis[j]? = some true) →
      (∀ j : Nat, vis[j]? = some true → findView vmap (k + j) = some v) →
      getCurrentViewAux vmap k vis = v := by
  intro vis
  induction vis with
  | nil =>
    rintro k ⟨j, hj⟩ _
    simp at hj
  | cons b rest ih =>
    intro k hex hall
    cases b with
    | true =>
      have h0 := hall 0 (by simp)
      rw [Nat.add_zero] at h0
      unfold getCurrentViewAux
      rw [if_pos rfl, h0]
    | false =>
      have hex' : ∃ j : Nat, rest[j]? = some true := by
        rcases hex with ⟨j, hj⟩
        cases j with
        | zero => simp at hj
        | succ j => exact ⟨j, by simpa using hj⟩
      have hall' : ∀ j : Nat, rest[j]? = some true → findView vmap (k + 1 + j) = some v := by
        intro j hj
        have := hall (j + 1) (by simpa using hj)
        have harith : k + (j + 1) = k + 1 + j := by omega
        rw [harith] at this
        exact this
      unfold getCurrentViewAux
      rw [if_neg (by simp)]
      exact ih (k + 1) hex' hall'

theorem findView_of_mem (v : String) (lv : List Nat) (hv : v ≠ "growth_lines") :
    ∀ vmap : List (String × List Nat),
      (v, lv) ∈ vmap →
      (∀ p ∈ vmap, p.1 ≠ v → p.1 ≠ "growth_lines" → ∀ i ∈ lv, i ∉ p.2) →
      (∀ p ∈ vmap, p.1 = v → p.2 = lv) →
      ∀ i ∈ lv, findView vmap i = some v := by
  intro vmap
  induction vmap with
  | nil => intro hmem _ _; cases hmem
  | cons q rest ih =>
    intro hmem honly huniq i hi
    unfold findView
    simp only [List.find?]
    by_cases hp : (decide (q.1 ≠ "growth_lines") && q.2.contains i) = true
    · rw [hp]
      by_cases hqv : q.1 = v
      · simp [hqv]
      · exfalso
        simp only [Bool.and_eq_true, decide_eq_true_eq] at hp
        have hgl : q.1 ≠ "growth_lines" := hp.1
        have hmemi : i ∈ q.2 := by
          have := hp.2
          simpa using this
        exact honly q (List.mem_cons_self q rest) hqv hgl i hi hmemi
    · have hpf : (decide (q.1 ≠ "growth_lines") && q.2.contains i) = false := by
        simpa using hp
      rw [hpf]
      have hmem' : (v, lv) ∈ rest := by
        rcases List.mem_cons.mp hmem with heq | hmem'
        · exfalso
          apply hp
          rw [← heq]
          simp [hv, hi]
        · exact hmem'
      have hres := ih hmem'
        (fun p hq => honly p (List.mem_cons_of_mem q hq))
        (fun p hq => huniq p (List.mem_cons_of_mem q hq)) i hi
      unfold findView at hres
      exact hres

theorem getCurrentView_mkVisibility (vmap : List (String × List Nat)) (n : Nat)
    (v : String) (lv : List Nat)
    (h1 : alookup v vmap = some lv) (h2 : lv ≠ []) (h3 : ∀ i ∈ lv, i < n)
    (h4 : v ≠ "growth_lines")
    (h5 : ∀ p ∈ vmap, p.1 ≠ v → p.1 ≠ "growth_lines" → ∀ i ∈ lv, i ∉ p.2)
    (h6 : ∀ p ∈ vmap, p.1 = v → p.2 = lv) :
    getCurrentView vmap (mkVisibility vmap n v) = v := by
  have hmemv : (v, lv) ∈ vmap := by
    unfold alookup at h1
    cases hfind : vmap.find? (fun p => decide (p.1 = v)) with
    | none => rw [hfind] at h1; cases h1
    | some p0 =>
      rw [hfind] at h1
      have hp0v : p0.1 = v := by
        have := List.find?_some hfind
        simpa using this
      have hp0lv : p0.2 = lv := by
        simpa using h1
      have hmem := List.mem_of_find?_eq_some hfind
      have : p0 = (v, lv) := by
        cases p0
        cases hp0v
        cases hp0lv
        rfl
      rw [← this]
      exact hmem
  unfold getCurrentView
  apply getCurrentViewAux_eq
  · obtain ⟨i0, hi0⟩ : ∃ i0, i0 ∈ lv := by
      cases lv with
      | nil => exact absurd rfl h2
      | cons a t => exact ⟨a, List.mem_cons_self a t⟩
    refine ⟨i0, ?_⟩
    rw [mkVisibility_getElem? vmap n v lv h1 i0 (h3 i0 hi0)]
    simp [hi0]
  · intro j hj
    have hjn : j < n := by
      by_contra hcon
      have hlen : (mkVisibility vmap n v).length = n := mkVisibility_length vmap n v
      rw [List.getElem?_eq_none (by omega)] at hj
      cases hj
    rw [mkVisibility_getElem? vmap n v lv h1 j hjn] at hj
    have hjl : j ∈ lv := by simpa using hj
    rw [Nat.zero_add]
    exact findView_of_mem v lv h4 vmap hmemv h5 h6 j hjl

/-- Claim C9, amended.  A view switch is two observable steps, not one: the
click sets the visibility (true exactly on the new view's recorded indices)
and schedules a deferred filter re-application; once the timer fires, the
filter engine has been re-invoked with the unchanged, currently-held
predicate fields, evaluated under the new view (provided the view's index
list is nonempty, within range, and disjoint from the other views', so
`getCurrentView` recovers it), and no work is pending.  Between the two
steps the old per-point visuals remain observable, as the counterexample
shows. -/
theorem C9_amended (e : Engine) (st : SysState) (v : String) (lv : List Nat)
    (h1 : alookup v e.vmap = some lv) (h2 : lv ≠ []) (h3 : ∀ i ∈ lv, i < e.n)
    (h4 : v ≠ "growth_lines")
    (h5 : ∀ p ∈ e.vmap, p.1 ≠ v → p.1 ≠ "growth_lines" → ∀ i ∈ lv, i ∉ p.2)
    (h6 : ∀ p ∈ e.vmap, p.1 = v → p.2 = lv) :
    (stepEv e (stepEv e st (UiEvent.clickView v)) UiEvent.timerFire).filters = st.filters
    ∧ (stepEv e (stepEv e st (UiEvent.clickView v)) UiEvent.timerFire).pending = false
    ∧ (∀ i, i < e.n →
        (stepEv e (stepEv e st (UiEvent.clickView v)) UiEvent.timerFire).vis[i]?
          = some (decide (i ∈ lv)))
    ∧ getCurrentView e.vmap
        (stepEv e (stepEv e st (UiEvent.clickView v)) UiEvent.timerFire).vis = v
    ∧ (stepEv e (stepEv e st (UiEvent.clickView v)) UiEvent.timerFire).traces
        = applyTraces e (matchArr e v st.filters) st.traces := by
  have hgcv : getCurrentView e.vmap (mkVisibility e.vmap e.n v) = v :=
    getCurrentView_mkVisibility e.vmap e.n v lv h1 h2 h3 h4 h5 h6
  refine ⟨rfl, rfl, ?_, ?_, ?_⟩
  · intro i hi
    show (mkVisibility e.vmap e.n v)[i]? = some (decide (i ∈ lv))
    exact mkVisibility_getElem? e.vmap e.n v lv h1 i hi
  · show getCurrentView e.vmap (mkVisibility e.vmap e.n v) = v
    exact hgcv
  · show applyTraces e
        (matchArr e (getCurrentView e.vmap (mkVisibility e.vmap e.n v)) st.filters) st.traces
      = applyTraces e (matchArr e v st.filters) st.traces
    rw [hgcv]

theorem C9_amended_witness :
    alookup "current" c9E.vmap = some [1]
    ∧ (stepEv c9E (stepEv c9E c9st0 (UiEvent.clickView "current")) UiEvent.timerFire).filters
        = c9st0.filters :=
  ⟨by decide,
   (C9_amended c9E c9st0 "current" [1] (by decide) (by decide) (by decide) (by decide)
     (by decide) (by decide)).1⟩

end PosMap
